import Mathlib

/-!
Shallow embedding of the mtg-commander-sim core engine
(`src/core/models.py`, `src/core/tags.py`, `src/core/engine.py`).

Python dictionaries `dict[str, int]` are modelled as association lists
(`List (String × Int)`), Python object identity (`id(obj)`) as an extra
`uid : Nat` field on `Card` that Pydantic value equality does not compare,
and Pydantic `==` as the field-wise `pyEq` below.  `random.shuffle` is
modelled as an explicit function parameter `σ : List Card → List Card`.
-/

set_option autoImplicit false

namespace MtgSim

/-- Substring test on character lists: does `pat` occur as a contiguous
infix of the list?  Models Python's `needle in haystack` for strings. -/
def startsList : List Char → List Char → Bool
  | _, [] => true
  | [], _ :: _ => false
  | a :: as, b :: bs => a == b && startsList as bs

/-- Occurrence of `pat` anywhere in `l` (Python `pat in l` on strings). -/
def hasSub (pat : List Char) : List Char → Bool
  | [] => startsList [] pat
  | a :: as => startsList (a :: as) pat || hasSub pat as

/-- Python `pat in s` for strings. -/
def strContains (s pat : String) : Bool :=
  hasSub pat.data s.data

/-- Python `str.lower()`. -/
def strLower (s : String) : String :=
  String.mk (s.data.map Char.toLower)

/-- Python `str.capitalize()` (first char upper, rest lower). -/
def pyCapitalize (s : String) : String :=
  match s.data with
  | [] => ""
  | c :: rest => String.mk (c.toUpper :: rest.map Char.toLower)

/-- A Python `dict[str, int]` as an insertion-ordered association list. -/
abbrev Dict := List (String × Int)

/-- Python `d.get(k, 0)`. -/
def dget : Dict → String → Int
  | [], _ => 0
  | p :: rest, k => if p.1 = k then p.2 else dget rest k

/-- Python `d[k] = v`: replace the (unique) binding of `k`, or append it. -/
def dset : Dict → String → Int → Dict
  | [], k, v => [(k, v)]
  | p :: rest, k, v => if p.1 = k then (k, v) :: rest else p :: dset rest k v

/-- Python `sum(d.values())`. -/
def dtotal (d : Dict) : Int :=
  (d.map Prod.snd).sum

/-- Card entity from `src/core/models.py`.  `uid` stands for Python object
identity (`id(card)`) and is not part of Pydantic value equality. -/
structure Card where
  uid : Nat
  name : String
  mana_cost : Dict
  cmc : Nat
  type_line : String
  oracle_text : String
  tags : List String
  scryfall_id : String
  color_identity : List String
  deriving Repr, DecidableEq

/-- Pydantic `==` on `Card`: field-wise equality, identity (`uid`) excluded. -/
def pyEq (c d : Card) : Bool :=
  c.name == d.name && c.mana_cost == d.mana_cost && c.cmc == d.cmc &&
  c.type_line == d.type_line && c.oracle_text == d.oracle_text &&
  c.tags == d.tags && c.scryfall_id == d.scryfall_id &&
  c.color_identity == d.color_identity

/-- Python `card in zone` (list membership via `==`). -/
def pyMem (c : Card) (l : List Card) : Bool :=
  l.any (pyEq c)

/-- Python `zone.remove(card)`: drop the first element `==` to `card`. -/
def pyRemove (l : List Card) (c : Card) : List Card :=
  l.eraseP (fun d => pyEq d c)

/-- Property `Card.is_land` from `models.py`: `"Land" in type_line`. -/
def Card.is_land (c : Card) : Bool :=
  strContains c.type_line "Land"

/-- Property `Card.is_permanent` from `models.py`: everything whose type line
mentions neither `Instant` nor `Sorcery`. -/
def Card.is_permanent (c : Card) : Bool :=
  !(strContains c.type_line "Instant" || strContains c.type_line "Sorcery")

/-- Zone state from `engine.py` (`GameState.__init__`). -/
structure GameState where
  library : List Card
  hand : List Card
  battlefield : List Card
  graveyard : List Card
  mana_pool : Dict
  turn_counter : Nat
  land_played_this_turn : Option Card
  cards_played_this_turn : List Card
  commander : Option Card
  deriving Repr, DecidableEq

/-- Method `GameState.draw_card`: move the library head to the hand tail,
returning the drawn card; a no-op returning `none` on an empty library. -/
def draw_card (s : GameState) : GameState × Option Card :=
  match s.library with
  | [] => (s, none)
  | c :: rest => ({ s with library := rest, hand := s.hand ++ [c] }, some c)

/-- Method `GameState.play_land`.  Python truthiness of
`land_played_this_turn` is `Option.isSome` (a `Card` is always truthy). -/
def play_land (s : GameState) (card : Card) : GameState × Bool :=
  if s.land_played_this_turn.isSome then (s, false)
  else if !(pyMem card s.hand) then (s, false)
  else if !card.is_land then (s, false)
  else
    ({ s with hand := pyRemove s.hand card,
              battlefield := s.battlefield ++ [card],
              land_played_this_turn := some card,
              cards_played_this_turn := s.cards_played_this_turn ++ [card] },
     true)

/-- Method `GameState.can_afford`: total pool mana at least total cost. -/
def can_afford (s : GameState) (cost : Dict) : Bool :=
  dtotal cost ≤ dtotal s.mana_pool

/-- Outcome of `GameState.cast_spell`: Python returns `False` when the card
is not in hand, raises `ValueError` when the cost is unaffordable, and
returns `True` (after mutating) otherwise. -/
inductive CastOut where
  | notInHand
  | fatal
  | ok (s : GameState)
  deriving Repr, DecidableEq

/-- Method `GameState.cast_spell`: pay the cost colour by colour
(`pool[color] = pool.get(color, 0) - amount`), remove the card from hand,
and route it to the battlefield (permanents, also recorded in
`cards_played_this_turn`) or the graveyard (instants/sorceries). -/
def cast_spell (s : GameState) (card : Card) (mana_cost : Dict) : CastOut :=
  if !(pyMem card s.hand) then .notInHand
  else if !(can_afford s mana_cost) then .fatal
  else
    let pool := mana_cost.foldl (fun p kv => dset p kv.1 (dget p kv.1 - kv.2)) s.mana_pool
    let s := { s with mana_pool := pool, hand := pyRemove s.hand card }
    if card.is_permanent then
      .ok { s with battlefield := s.battlefield ++ [card],
                   cards_played_this_turn := s.cards_played_this_turn ++ [card] }
    else
      .ok { s with graveyard := s.graveyard ++ [card] }

/-- State reached by `cast_spell` (unchanged unless the cast succeeded). -/
def castState (s : GameState) (card : Card) (mana_cost : Dict) : GameState :=
  match cast_spell s card mana_cost with
  | .ok s' => s'
  | _ => s

/-- Method `GameState.add_mana`: `pool[color] = pool.get(color, 0) + amount`
for every entry of the delta. -/
def add_mana (s : GameState) (mana : Dict) : GameState :=
  { s with mana_pool := mana.foldl (fun p kv => dset p kv.1 (dget p kv.1 + kv.2)) s.mana_pool }

/-- Method `GameState.clear_mana_pool`: reset pool and entered-this-turn set. -/
def clear_mana_pool (s : GameState) : GameState :=
  { s with mana_pool := [], cards_played_this_turn := [] }

/-- Method `GameState.get_total_mana`. -/
def get_total_mana (s : GameState) : Int :=
  dtotal s.mana_pool

/-! Embedding of `src/core/tags.py`.  The `re.search` pattern tests are
abstracted as boolean inputs (`RxOut`): the tag computation depends on the
free text only through which patterns matched, so theorems quantified over
`RxOut` cover every possible oracle text.  Plain `in` substring tests are
kept concrete. -/

/-- Static `STATIC_CARD_TAGS` table from `tags.py`. -/
def STATIC_CARD_TAGS : List (String × List String) :=
  [ ("Sol Ring", ["RAMP", "ARTIFACT", "MANA_ROCK"]),
    ("Arcane Signet", ["RAMP", "ARTIFACT", "MANA_ROCK"]),
    ("Mana Crypt", ["RAMP", "ARTIFACT", "MANA_ROCK"]),
    ("Mana Vault", ["RAMP", "ARTIFACT", "MANA_ROCK"]),
    ("Chrome Mox", ["RAMP", "ARTIFACT", "MANA_ROCK"]),
    ("Mox Diamond", ["RAMP", "ARTIFACT", "MANA_ROCK"]),
    ("Fellwar Stone", ["RAMP", "ARTIFACT", "MANA_ROCK"]),
    ("Thought Vessel", ["RAMP", "ARTIFACT", "MANA_ROCK"]),
    ("Mind Stone", ["RAMP", "ARTIFACT", "MANA_ROCK"]),
    ("Talisman of Dominance", ["RAMP", "ARTIFACT", "MANA_ROCK"]),
    ("Talisman of Progress", ["RAMP", "ARTIFACT", "MANA_ROCK"]),
    ("Talisman of Creativity", ["RAMP", "ARTIFACT", "MANA_ROCK"]),
    ("Talisman of Conviction", ["RAMP", "ARTIFACT", "MANA_ROCK"]),
    ("Talisman of Hierarchy", ["RAMP", "ARTIFACT", "MANA_ROCK"]),
    ("Coldsteel Heart", ["RAMP", "ARTIFACT", "MANA_ROCK", "TAPPED_ENTRY"]),
    ("Fire Diamond", ["RAMP", "ARTIFACT", "MANA_ROCK", "TAPPED_ENTRY"]),
    ("Marble Diamond", ["RAMP", "ARTIFACT", "MANA_ROCK", "TAPPED_ENTRY"]),
    ("Sky Diamond", ["RAMP", "ARTIFACT", "MANA_ROCK", "TAPPED_ENTRY"]),
    ("Moss Diamond", ["RAMP", "ARTIFACT", "MANA_ROCK", "TAPPED_ENTRY"]),
    ("Charcoal Diamond", ["RAMP", "ARTIFACT", "MANA_ROCK", "TAPPED_ENTRY"]),
    ("Star Compass", ["RAMP", "ARTIFACT", "MANA_ROCK", "TAPPED_ENTRY"]),
    ("Prismatic Lens", ["RAMP", "ARTIFACT", "MANA_ROCK"]),
    ("Thran Dynamo", ["RAMP", "ARTIFACT", "MANA_ROCK"]),
    ("Hedron Archive", ["RAMP", "ARTIFACT", "MANA_ROCK"]),
    ("Gilded Lotus", ["RAMP", "ARTIFACT", "MANA_ROCK"]),
    ("Command Tower", ["LAND", "RAMP"]),
    ("Arcane Lighthouse", ["LAND"]),
    ("Reliquary Tower", ["LAND"]),
    ("Urborg, Tomb of Yawgmoth", ["LAND", "RAMP"]),
    ("Cabal Coffers", ["LAND", "RAMP"]),
    ("Rampant Growth", ["RAMP", "SORCERY"]),
    ("Cultivate", ["RAMP", "SORCERY"]),
    ("Kodama's Reach", ["RAMP", "SORCERY"]),
    ("Farseek", ["RAMP", "SORCERY"]),
    ("Nature's Lore", ["RAMP", "SORCERY"]),
    ("Three Visits", ["RAMP", "SORCERY"]),
    ("Skyshroud Claim", ["RAMP", "SORCERY"]),
    ("Llanowar Elves", ["RAMP", "CREATURE"]),
    ("Arbor Elf", ["RAMP", "CREATURE"]),
    ("Birds of Paradise", ["RAMP", "CREATURE"]),
    ("Fyndhorn Elves", ["RAMP", "CREATURE"]),
    ("Sakura-Tribe Elder", ["RAMP", "CREATURE"]),
    ("Rhystic Study", ["DRAW", "ENCHANTMENT"]),
    ("Mystic Remora", ["DRAW", "ENCHANTMENT"]),
    ("Phyrexian Arena", ["DRAW", "ENCHANTMENT"]),
    ("Sylvan Library", ["DRAW", "ENCHANTMENT"]),
    ("Swords to Plowshares", ["REMOVAL", "INSTANT"]),
    ("Path to Exile", ["REMOVAL", "INSTANT"]),
    ("Assassin's Trophy", ["REMOVAL", "INSTANT"]),
    ("Beast Within", ["REMOVAL", "INSTANT"]),
    ("Chaos Warp", ["REMOVAL", "INSTANT"]),
    ("Generous Gift", ["REMOVAL", "INSTANT"]),
    ("Wrath of God", ["BOARD_WIPE", "SORCERY"]),
    ("Damnation", ["BOARD_WIPE", "SORCERY"]),
    ("Cyclonic Rift", ["BOARD_WIPE", "INSTANT"]),
    ("Blasphemous Act", ["BOARD_WIPE", "SORCERY"]),
    ("Counterspell", ["COUNTERSPELL", "INSTANT"]),
    ("Swan Song", ["COUNTERSPELL", "INSTANT"]),
    ("Mana Drain", ["COUNTERSPELL", "INSTANT"]),
    ("Force of Will", ["COUNTERSPELL", "INSTANT"]),
    ("Pact of Negation", ["COUNTERSPELL", "INSTANT"]),
    ("Demonic Tutor", ["TUTOR", "SORCERY"]),
    ("Vampiric Tutor", ["TUTOR", "INSTANT"]),
    ("Worldly Tutor", ["TUTOR", "INSTANT"]),
    ("Mystical Tutor", ["TUTOR", "INSTANT"]),
    ("Enlightened Tutor", ["TUTOR", "INSTANT"]) ]

/-- Basic land type word captured by the check-land count regex (its group 2
alternatives in `tags.py`). -/
inductive BasicPlural where
  | mountains | islands | plains | swamps | forests
  deriving Repr, DecidableEq

/-- Python `match.group(2).upper()[:-1]` for the count regex. -/
def BasicPlural.tagWord : BasicPlural → String
  | .mountains => "MOUNTAIN"
  | .islands => "ISLAND"
  | .plains => "PLAIN"
  | .swamps => "SWAMP"
  | .forests => "FOREST"

/-- Outcomes of the `re.search` calls of `assign_tags` on one card's
(lowercased) oracle text, in source order. -/
structure RxOut where
  mana_rock : Bool
  draw_cards : Bool
  board_wipe : Bool
  tutor : Bool
  tapped_entry : Bool
  unless_two_basic : Bool
  unless_basic_type : Bool
  unless_pay_reveal : Bool
  fastland : Bool
  count3 : Option BasicPlural
  opp_more_lands : Bool
  enters_if_three : Bool
  deriving Repr, DecidableEq

/-- Python `set.add` on the insertion-ordered set model. -/
def sAdd (l : List String) (t : String) : List String :=
  if l.contains t then l else l ++ [t]

/-- Python `set.remove` (the callers guard membership). -/
def sRemove (l : List String) (t : String) : List String :=
  l.filter (fun x => x ≠ t)

/-- Steps 1-3 of `assign_tags`: static table, then structural type tags. -/
def tagsStructural (card_name type_line : String) : List String :=
  let tags : List String := []
  let tags := match (STATIC_CARD_TAGS.find? (fun p => p.1 = card_name)) with
    | some p => p.2.foldl sAdd tags
    | none => tags
  let tags := if strContains type_line "Land" then sAdd tags "LAND" else tags
  let tags := if strContains type_line "Artifact" then sAdd tags "ARTIFACT" else tags
  let tags := if strContains type_line "Creature" then sAdd tags "CREATURE" else tags
  let tags := if strContains type_line "Enchantment" then sAdd tags "ENCHANTMENT" else tags
  let tags := if strContains type_line "Instant" then sAdd tags "INSTANT" else tags
  let tags := if strContains type_line "Sorcery" then sAdd tags "SORCERY" else tags
  if strContains type_line "Planeswalker" then sAdd tags "PLANESWALKER" else tags

/-- Step 4 of `assign_tags`: pattern rules on the lowercased oracle text. -/
def tagsFromText (oracle_text : String) (rx : RxOut) (tags : List String) : List String :=
  let lower := strLower oracle_text
  let tags := if strContains lower "search your library for a" && strContains lower "land" then
      sAdd tags "RAMP" else tags
  let tags := if rx.mana_rock then sAdd (sAdd tags "MANA_ROCK") "RAMP" else tags
  let tags := if rx.draw_cards then sAdd tags "DRAW" else tags
  let tags := if (["destroy", "exile", "sacrifice"].any (strContains lower)) &&
                 (["creature", "permanent", "target"].any (strContains lower)) then
      sAdd tags "REMOVAL" else tags
  let tags := if rx.board_wipe then sAdd tags "BOARD_WIPE" else tags
  let tags := if strContains lower "counter target spell" then sAdd tags "COUNTERSPELL" else tags
  let tags := if rx.tutor then sAdd tags "TUTOR" else tags
  if rx.tapped_entry then sAdd tags "TAPPED_ENTRY" else tags

/-- Secondary exception pass of `assign_tags` for lands that earned
`TAPPED_ENTRY`: the ordered `if`/`elif` chain over the conditional
phrasings. -/
def tagsLandCond (type_line : String) (rx : RxOut) (tags : List String) : List String :=
  if strContains type_line "Land" && tags.contains "TAPPED_ENTRY" then
    if rx.unless_two_basic then sRemove tags "TAPPED_ENTRY"
    else if rx.unless_basic_type then sRemove tags "TAPPED_ENTRY"
    else if rx.unless_pay_reveal then sRemove tags "TAPPED_ENTRY"
    else if rx.fastland then sAdd tags "COND_FASTLAND"
    else match rx.count3 with
      | some w => sAdd tags ("COND_COUNT_3_" ++ w.tagWord)
      | none =>
        if rx.opp_more_lands then tags
        else if rx.enters_if_three then sRemove tags "TAPPED_ENTRY"
        else tags
  else tags

/-- Function `assign_tags` from `tags.py` (regex outcomes supplied in `rx`). -/
def assign_tags (card_name type_line oracle_text : String) (rx : RxOut) : List String :=
  tagsLandCond type_line rx (tagsFromText oracle_text rx (tagsStructural card_name type_line))

/-! Embedding of the `GameEngine` main-phase machinery from `engine.py`. -/

/-- Python `s.startswith(pat)`. -/
def strStarts (s pat : String) : Bool :=
  startsList s.data pat.data

/-- Suffix of `s` after its last `_` (Python `s.split("_")[-1]`). -/
def lastCompData : List Char → List Char → List Char
  | cur, [] => cur
  | cur, c :: rest => if c == '_' then lastCompData [] rest else lastCompData (cur ++ [c]) rest

/-- Python `tag.split("_")[-1]`. -/
def lastComp (s : String) : String :=
  String.mk (lastCompData [] s.data)

/-- One `COND_COUNT_3_<TYPE>` tag of `card` whose battlefield count condition
is satisfied (the body of the tag loop in `_check_enters_tapped`). -/
def condCountSat (battlefield : List Card) (card : Card) (tag : String) : Bool :=
  strStarts tag "COND_COUNT_3_" &&
    let land_type := pyCapitalize (lastComp tag)
    3 ≤ battlefield.countP (fun c =>
          c.is_land && !pyEq c card && strContains c.type_line land_type)

/-- Method `GameEngine._check_enters_tapped`: a `TAPPED_ENTRY` land enters
untapped when its fastland condition (at most two other lands) or one of its
`COND_COUNT_3_*` conditions holds against the live battlefield. -/
def check_enters_tapped (battlefield : List Card) (card : Card) : Bool :=
  if !(card.tags.contains "TAPPED_ENTRY") then false
  else if card.tags.contains "COND_FASTLAND" &&
          battlefield.countP (fun c => c.is_land && !pyEq c card) ≤ 2 then false
  else if card.tags.any (condCountSat battlefield card) then false
  else true

/-- Engine-loop state: the zone state plus the `tapped_objects` identity set
local to `_main_phase_heuristic`. -/
structure EState where
  gs : GameState
  tapped : List Nat
  deriving Repr, DecidableEq

/-- Eligibility filter for the land mana sweep (the `continue` chain of the
lands section of the fixed-point loop). -/
def landEligible (st : EState) (land : Card) : Bool :=
  !(st.tapped.contains land.uid) &&
  !(land.tags.contains "FETCH_LAND") &&
  !(pyMem land st.gs.cards_played_this_turn && land.tags.contains "TAPPED_ENTRY") &&
  !((match st.gs.land_played_this_turn with
     | some lp => pyEq land lp
     | none => false) && check_enters_tapped st.gs.battlefield land)

/-- Land mana sweep: collect every eligible untapped land (against the
pre-sweep tapped set, as the source does), then tap each for one colorless. -/
def sweepLands (st : EState) : EState × Bool :=
  let untapped := (st.gs.battlefield.filter Card.is_land).filter (landEligible st)
  (⟨untapped.foldl (fun gs _ => add_mana gs [("colorless", 1)]) st.gs,
    st.tapped ++ untapped.map Card.uid⟩,
   !untapped.isEmpty)

/-- Eligibility filter for one mana rock against the current tapped set. -/
def rockEligible (st : EState) (artifact : Card) : Bool :=
  !(st.tapped.contains artifact.uid) &&
  !(pyMem artifact st.gs.cards_played_this_turn &&
    (artifact.tags.contains "TAPPED_ENTRY" || strContains artifact.type_line "Creature"))

/-- One step of the mana rock sweep `for` loop. -/
def rockStep (acc : EState × Bool) (a : Card) : EState × Bool :=
  if rockEligible acc.1 a then
    (⟨add_mana acc.1.gs [("colorless", 1)], acc.1.tapped ++ [a.uid]⟩, true)
  else acc

/-- Mana rock sweep: sequentially tap each eligible `MANA_ROCK` artifact for
one colorless (the tapped set grows as the `for` progresses). -/
def sweepRocks (st : EState) : EState × Bool :=
  (st.gs.battlefield.filter (fun c =>
      c.tags.contains "MANA_ROCK" && c.tags.contains "ARTIFACT")).foldl
    rockStep (st, false)

/-- Stable descending insertion by `cmc`: the new card goes after every card
of at least its mana value, modelling Python's stable
`sort(key=cmc, reverse=True)`. -/
def insertDesc (c : Card) : List Card → List Card
  | [] => [c]
  | x :: xs => if c.cmc ≤ x.cmc then x :: insertDesc c xs else c :: x :: xs

/-- Stable descending sort by `cmc`. -/
def pySortDesc (l : List Card) : List Card :=
  l.foldl (fun acc c => insertDesc c acc) []

/-- Non-land hand cards affordable with the current pool, in hand order. -/
def affordableOf (gs : GameState) : List Card :=
  (gs.hand.filter (fun c => !c.is_land)).filter (fun c => can_afford gs c.mana_cost)

/-- Spell chosen by one pass of the loop: head of the affordable non-land
hand cards sorted descending by `cmc` (`affordable.sort(...); affordable[0]`). -/
def chosenSpell (gs : GameState) : Option Card :=
  (pySortDesc (affordableOf gs)).head?

/-- First eligible fetch-land of the battlefield: `{T}`-activated fetchers
are skipped when already used this turn or when they are the land played
this turn and enter tapped; triggered fetchers are always eligible. -/
def fetcherEligible (st : EState) (f : Card) : Bool :=
  !(strContains f.oracle_text "\x7bT\x7d" &&
    (st.tapped.contains f.uid ||
     ((match st.gs.land_played_this_turn with
       | some lp => pyEq f lp
       | none => false) && f.tags.contains "TAPPED_ENTRY")))

/-- Search predicate of `_resolve_fetch_lands`: a land that is explicitly
`Basic` or carries one of the five basic type names. -/
def fetchTargetPred (c : Card) : Bool :=
  c.is_land && (strContains c.type_line "Basic" ||
    ["Mountain", "Island", "Plains", "Swamp", "Forest"].any (strContains c.type_line))

/-- Library search of `_resolve_fetch_lands`: the first matching card. -/
def findTarget (library : List Card) : Option Card :=
  library.find? fetchTargetPred

/-- Instance-level forced `TAPPED_ENTRY` tag on a fetched land. -/
def forceTapped (t : Card) : Card :=
  if t.tags.contains "TAPPED_ENTRY" then t else { t with tags := t.tags ++ ["TAPPED_ENTRY"] }

/-- Method `GameEngine._resolve_fetch_lands` with the shuffle as an explicit
parameter `σ`: crack the first eligible fetcher (sacrifice to graveyard);
when a target land is found, move it tapped onto the battlefield and shuffle
the remaining library; either way report `true`.  With no eligible fetcher,
report `false` with no change. -/
def resolveFetchLands (σ : List Card → List Card) (st : EState) : EState × Bool :=
  match (st.gs.battlefield.filter (fun c => c.tags.contains "FETCH_LAND")).find?
        (fetcherEligible st) with
  | none => (st, false)
  | some fetcher =>
    let bf := pyRemove st.gs.battlefield fetcher
    let gy := st.gs.graveyard ++ [fetcher]
    match findTarget st.gs.library with
    | some t =>
      let t' := forceTapped t
      (⟨{ st.gs with battlefield := bf ++ [t'],
                     graveyard := gy,
                     library := σ (pyRemove st.gs.library t),
                     cards_played_this_turn := st.gs.cards_played_this_turn ++ [t'] },
         st.tapped⟩, true)
    | none =>
      (⟨{ st.gs with battlefield := bf, graveyard := gy }, st.tapped⟩, true)

/-- Result of one pass of the fixed-point loop: `fatal` models the
`ValueError` of an unaffordable cast propagating out of the loop. -/
inductive BodyOut where
  | fatal
  | next (st : EState) (cont : Bool)
  deriving Repr, DecidableEq

/-- Mana sweep half of one loop pass: land sweep then rock sweep, and
whether any mana was added. -/
def decisionState (st : EState) : EState × Bool :=
  let (st1, landsAdded) := sweepLands st
  let (st2, rocksAdded) := sweepRocks st1
  (st2, landsAdded || rocksAdded)

/-- One pass of the `while True` loop of `_main_phase_heuristic`: land
sweep, rock sweep, one cast attempt of the chosen spell, then — when
neither added mana nor cast — one fetch attempt deciding continue/break. -/
def loopBody (σ : List Card → List Card) (st : EState) : BodyOut :=
  let (st2, manaAdded) := decisionState st
  match chosenSpell st2.gs with
  | some spell =>
    match cast_spell st2.gs spell spell.mana_cost with
    | .ok gs' => .next ⟨gs', st2.tapped⟩ true
    | .fatal => .fatal
    | .notInHand =>
      if manaAdded then .next st2 true
      else
        match resolveFetchLands σ st2 with
        | (st3, true) => .next st3 true
        | (st3, false) => .next st3 false
  | none =>
    if manaAdded then .next st2 true
    else
      match resolveFetchLands σ st2 with
      | (st3, true) => .next st3 true
      | (st3, false) => .next st3 false

/-- Fuel-indexed run of the fixed-point loop, reporting the final state, the
number of passes executed, and whether the loop actually finished (reached
`break` or the fatal cast) within the given fuel. -/
def runLoop (σ : List Card → List Card) : Nat → EState → EState × Nat × Bool
  | 0, st => (st, 0, false)
  | fuel + 1, st =>
    match loopBody σ st with
    | .fatal => (st, 1, true)
    | .next st' false => (st', 1, true)
    | .next st' true =>
      let r := runLoop σ fuel st'
      (r.1, r.2.1 + 1, r.2.2)

/-! Basic lemmas about the dictionary model and Python list operations. -/

theorem dtotal_nil : dtotal [] = 0 := rfl

theorem dtotal_cons (p : String × Int) (d : Dict) : dtotal (p :: d) = p.2 + dtotal d := by
  simp [dtotal]

theorem dtotal_dset (d : Dict) (k : String) (v : Int) :
    dtotal (dset d k v) = dtotal d - dget d k + v := by
  induction d with
  | nil => simp [dset, dget, dtotal]
  | cons p rest ih =>
    by_cases h : p.1 = k
    · simp [dset, dget, h, dtotal_cons]; ring
    · simp [dset, dget, h, dtotal_cons, ih]; ring

theorem dtotal_payFold (cost pool : Dict) :
    dtotal (cost.foldl (fun p kv => dset p kv.1 (dget p kv.1 - kv.2)) pool) =
      dtotal pool - dtotal cost := by
  induction cost generalizing pool with
  | nil => simp [dtotal]
  | cons kv rest ih => simp [List.foldl_cons, ih, dtotal_dset, dtotal_cons]; ring

theorem dtotal_addFold (mana pool : Dict) :
    dtotal (mana.foldl (fun p kv => dset p kv.1 (dget p kv.1 + kv.2)) pool) =
      dtotal pool + dtotal mana := by
  induction mana generalizing pool with
  | nil => simp [dtotal]
  | cons kv rest ih => simp [List.foldl_cons, ih, dtotal_dset, dtotal_cons]; ring

theorem dtotal_nonneg_of (d : Dict) (h : ∀ kv ∈ d, 0 ≤ kv.2) : 0 ≤ dtotal d := by
  induction d with
  | nil => simp [dtotal]
  | cons p rest ih =>
    rw [dtotal_cons]
    have h1 := h p (List.mem_cons_self p rest)
    have h2 := ih (fun kv hkv => h kv (List.mem_cons_of_mem p hkv))
    omega

theorem pyEq_refl (c : Card) : pyEq c c = true := by
  simp [pyEq]

theorem pyMem_of_mem {c : Card} {l : List Card} (h : c ∈ l) : pyMem c l = true := by
  simp only [pyMem, List.any_eq_true]
  exact ⟨c, h, pyEq_refl c⟩

theorem pyEq_symm {c d : Card} (h : pyEq c d = true) : pyEq d c = true := by
  simp only [pyEq, Bool.and_eq_true, beq_iff_eq] at h ⊢
  obtain ⟨⟨⟨⟨⟨⟨⟨h1, h2⟩, h3⟩, h4⟩, h5⟩, h6⟩, h7⟩, h8⟩ := h
  exact ⟨⟨⟨⟨⟨⟨⟨h1.symm, h2.symm⟩, h3.symm⟩, h4.symm⟩, h5.symm⟩, h6.symm⟩, h7.symm⟩, h8.symm⟩

theorem length_pyRemove_of_pyMem {l : List Card} {c : Card} (h : pyMem c l = true) :
    (pyRemove l c).length = l.length - 1 := by
  simp only [pyMem, List.any_eq_true] at h
  obtain ⟨d, hd, hpd⟩ := h
  exact List.length_eraseP_of_mem hd (pyEq_symm hpd)

/-! Claim theorems for the zone-state operations. -/

/-- Helper for concrete witness states. -/
def mkCard (uid : Nat) (name : String) (cost : Dict) (cmc : Nat)
    (tl ot : String) (tags : List String) : Card :=
  ⟨uid, name, cost, cmc, tl, ot, tags, "", []⟩

/-- Empty zone state as built by `GameState.__init__` (turn set to 1). -/
def baseState : GameState :=
  ⟨[], [], [], [], [], 1, none, [], none⟩

/-- C10: `draw_card` moves the library head to the hand tail leaving the rest
of the library in order, and on an empty library it is a no-op returning an
empty result (`None`), not an error. -/
theorem C10_draw_card_spec (s : GameState) :
    (s.library = [] → draw_card s = (s, none)) ∧
    (∀ c rest, s.library = c :: rest →
      draw_card s = ({ s with library := rest, hand := s.hand ++ [c] }, some c)) := by
  constructor
  · intro h
    simp [draw_card, h]
  · intro c rest h
    simp [draw_card, h]

def c10Card : Card := mkCard 1 "Forest" [] 0 "Basic Land — Forest" "" ["LAND"]

def c10State : GameState := { baseState with library := [c10Card] }

/-- Witness for C10 at a one-card library and at the empty library. -/
theorem C10_draw_card_witness :
    draw_card baseState = (baseState, none) ∧
    draw_card c10State =
      ({ c10State with library := [], hand := [c10Card] }, some c10Card) := by
  refine ⟨(C10_draw_card_spec baseState).1 rfl, ?_⟩
  have h := (C10_draw_card_spec c10State).2 c10Card [] rfl
  simpa using h

/-- C5: `play_land` succeeds iff no land was yet played this turn, the card
is in hand (Python `==` membership), and the card is a land; on success it
moves the card hand→battlefield, records it as the turn's land and as
entered-this-turn; on failure nothing changes; and after a success every
further land play this turn fails regardless of card. -/
theorem C5_play_land_spec (s : GameState) (card : Card) :
    ((play_land s card).2 = true ↔
      s.land_played_this_turn = none ∧ pyMem card s.hand = true ∧ card.is_land = true) ∧
    ((play_land s card).2 = true →
      (play_land s card).1 =
        { s with hand := pyRemove s.hand card,
                 battlefield := s.battlefield ++ [card],
                 land_played_this_turn := some card,
                 cards_played_this_turn := s.cards_played_this_turn ++ [card] }) ∧
    ((play_land s card).2 = false → (play_land s card).1 = s) ∧
    (∀ c', (play_land s card).2 = true →
      (play_land (play_land s card).1 c').2 = false) := by
  rcases hl : s.land_played_this_turn with _ | lp
  · by_cases hm : pyMem card s.hand <;> by_cases hland : card.is_land <;>
      simp [play_land, hl, hm, hland]
  · simp [play_land, hl]

def c5Land : Card := mkCard 2 "Forest" [] 0 "Basic Land — Forest" "" ["LAND"]

def c5State : GameState := { baseState with hand := [c5Land] }

/-- Witness for C5: playing a Forest from hand succeeds and a second attempt
with the same card fails. -/
theorem C5_play_land_witness :
    (play_land c5State c5Land).2 = true ∧
    (play_land (play_land c5State c5Land).1 c5Land).2 = false := by
  have h := C5_play_land_spec c5State c5Land
  refine ⟨(h.1).2 ⟨rfl, by decide, by decide⟩, ?_⟩
  exact h.2.2.2 c5Land ((h.1).2 ⟨rfl, by decide, by decide⟩)

/-- C3: `cast_spell` succeeds iff the card is in hand and the pool total
covers the cost total (colours fungible); on success it deducts the total
cost, removes the card from hand, and routes permanents to the battlefield
and instants/sorceries to the graveyard; an affordable-check failure with
the card in hand raises (`fatal`), never a silent `False`. -/
theorem C3_cast_spell_spec (s : GameState) (card : Card) (cost : Dict) :
    ((∃ gs, cast_spell s card cost = .ok gs) ↔
      pyMem card s.hand = true ∧ can_afford s cost = true) ∧
    (cast_spell s card cost = .fatal ↔
      pyMem card s.hand = true ∧ can_afford s cost = false) ∧
    (cast_spell s card cost = .notInHand ↔ pyMem card s.hand = false) ∧
    (∀ gs, cast_spell s card cost = .ok gs →
      dtotal gs.mana_pool = dtotal s.mana_pool - dtotal cost ∧
      gs.hand = pyRemove s.hand card ∧
      gs.library = s.library ∧
      (card.is_permanent = true →
        gs.battlefield = s.battlefield ++ [card] ∧ gs.graveyard = s.graveyard) ∧
      (card.is_permanent = false →
        gs.graveyard = s.graveyard ++ [card] ∧ gs.battlefield = s.battlefield)) := by
  by_cases hm : pyMem card s.hand <;> by_cases ha : can_afford s cost <;>
    by_cases hp : card.is_permanent <;>
      simp [cast_spell, hm, ha, hp, dtotal_payFold]

def c3Rock : Card := mkCard 3 "Mind Stone" [("colorless", 2)] 2 "Artifact"
  "add one mana" ["RAMP", "ARTIFACT", "MANA_ROCK"]

def c3State : GameState := { baseState with hand := [c3Rock], mana_pool := [("colorless", 3)] }

/-- Witness for C3: an affordable artifact cast succeeds onto the
battlefield with the total cost deducted. -/
theorem C3_cast_spell_witness :
    (∃ gs, cast_spell c3State c3Rock [("colorless", 2)] = .ok gs) ∧
    (∀ gs, cast_spell c3State c3Rock [("colorless", 2)] = .ok gs →
      dtotal gs.mana_pool = 1 ∧ gs.battlefield = [c3Rock]) := by
  have h := C3_cast_spell_spec c3State c3Rock [("colorless", 2)]
  refine ⟨(h.1).2 ⟨by decide, by decide⟩, ?_⟩
  intro gs hgs
  have hd := h.2.2.2 gs hgs
  have hperm := (hd.2.2.2.1 (by decide))
  constructor
  · rw [hd.1]; decide
  · rw [hperm.1]; rfl

/-! C1: mana-pool non-negativity. -/

def c1Card : Card := mkCard 4 "Bolt" [("R", 1)] 1 "Sorcery" "" []

def c1State : GameState := { baseState with hand := [c1Card], mana_pool := [("colorless", 1)] }

/-- C1 counterexample: from a pool holding one colorless mana (all entries
non-negative), casting a spell costing `{R: 1}` succeeds — the affordability
check compares totals only — but leaves the per-color entry `R` at `-1`. -/
theorem C1_counterexample :
    (∀ kv ∈ c1State.mana_pool, 0 ≤ kv.2) ∧
    cast_spell c1State c1Card [("R", 1)] = .ok (castState c1State c1Card [("R", 1)]) ∧
    dget (castState c1State c1Card [("R", 1)]).mana_pool "R" = -1 := by
  exact ⟨by decide, by decide, by decide⟩

/-- One `GameState` operation of the sequences quantified over in C1. -/
inductive Op where
  | draw
  | play (c : Card)
  | cast (c : Card) (m : Dict)
  | add (m : Dict)
  | clear
  deriving DecidableEq

/-- Application of one operation (exception/failure leaves the state). -/
def applyOp (s : GameState) : Op → GameState
  | .draw => (draw_card s).1
  | .play c => (play_land s c).1
  | .cast c m => castState s c m
  | .add m => add_mana s m
  | .clear => clear_mana_pool s

theorem mana_pool_draw (s : GameState) : (draw_card s).1.mana_pool = s.mana_pool := by
  unfold draw_card
  cases s.library <;> rfl

theorem mana_pool_play (s : GameState) (c : Card) :
    (play_land s c).1.mana_pool = s.mana_pool := by
  unfold play_land
  by_cases h1 : s.land_played_this_turn.isSome <;>
    by_cases h2 : pyMem c s.hand <;> by_cases h3 : c.is_land <;> simp [h1, h2, h3]

theorem dtotal_castState (s : GameState) (c : Card) (m : Dict)
    (h : 0 ≤ dtotal s.mana_pool) : 0 ≤ dtotal (castState s c m).mana_pool := by
  unfold castState cast_spell
  by_cases hm : pyMem c s.hand
  · by_cases ha : can_afford s m
    · have haf : dtotal m ≤ dtotal s.mana_pool := by
        simpa [can_afford] using ha
      by_cases hp : c.is_permanent <;>
        simp [hm, ha, hp, dtotal_payFold] <;> omega
    · simp [hm, ha, h]
  · simp [hm, h]

/-- C1 (amended): under `draw_card`, `play_land`, `cast_spell`, `add_mana`
(with non-negative deltas) and `clear_mana_pool`, the pool TOTAL stays
non-negative from any pool whose entries are non-negative; per-color entries
themselves can go negative (see the counterexample), because `cast_spell`
checks affordability on totals only while deducting per color. -/
theorem C1_total_nonneg (ops : List Op) (s : GameState)
    (h0 : ∀ kv ∈ s.mana_pool, 0 ≤ kv.2)
    (hadd : ∀ m kv, Op.add m ∈ ops → kv ∈ m → 0 ≤ kv.2) :
    0 ≤ dtotal (ops.foldl applyOp s).mana_pool := by
  have htot : 0 ≤ dtotal s.mana_pool := dtotal_nonneg_of _ h0
  clear h0
  induction ops generalizing s with
  | nil => simpa using htot
  | cons op rest ih =>
    rw [List.foldl_cons]
    refine ih (applyOp s op) ?_ ?_
    · intro m kv hm hkv
      exact hadd m kv (List.mem_cons_of_mem op hm) hkv
    · cases op with
      | draw => rw [applyOp, mana_pool_draw]; exact htot
      | play c => rw [applyOp, mana_pool_play]; exact htot
      | cast c m => exact dtotal_castState s c m htot
      | add m =>
        have hm : ∀ kv ∈ m, 0 ≤ kv.2 := fun kv hkv =>
          hadd m kv (List.mem_cons_self _ _) hkv
        have := dtotal_nonneg_of m hm
        simp only [applyOp, add_mana, dtotal_addFold]
        omega
      | clear => simp [applyOp, clear_mana_pool, dtotal]

/-- Witness for C1 (amended): a concrete three-operation sequence from a
one-mana pool keeps the total non-negative. -/
theorem C1_total_nonneg_witness :
    0 ≤ dtotal (([Op.draw, Op.add [("colorless", 2)],
      Op.cast c1Card [("R", 1)]].foldl applyOp c1State).mana_pool) := by
  refine C1_total_nonneg _ c1State (by decide) ?_
  intro m kv hm hkv
  simp only [List.mem_cons, List.not_mem_nil, or_false] at hm
  rcases hm with h | h | h
  · exact absurd h (by simp)
  · have hm2 : m = [("colorless", 2)] := by injection h
    subst hm2
    simp only [List.mem_cons, List.not_mem_nil, or_false] at hkv
    subst hkv
    decide
  · exact absurd h (by simp)

/-! Membership lemmas for the tag computation (C4 and C8). -/

theorem mem_sAdd {l : List String} {t x : String} (h : x ∈ sAdd l t) : x ∈ l ∨ x = t := by
  unfold sAdd at h
  split at h
  · exact Or.inl h
  · rcases List.mem_append.mp h with h' | h'
    · exact Or.inl h'
    · exact Or.inr (List.mem_singleton.mp h')

theorem mem_sAdd_self (l : List String) (t : String) : t ∈ sAdd l t := by
  unfold sAdd
  split
  · next h => exact List.elem_iff.mp h
  · exact List.mem_append.mpr (Or.inr (List.mem_singleton.mpr rfl))

theorem mem_sAdd_left {l : List String} {x : String} (t : String) (h : x ∈ l) : x ∈ sAdd l t := by
  unfold sAdd
  split
  · exact h
  · exact List.mem_append.mpr (Or.inl h)

theorem mem_foldl_sAdd {ts l : List String} {x : String} (h : x ∈ ts.foldl sAdd l) :
    x ∈ l ∨ x ∈ ts := by
  induction ts generalizing l with
  | nil => exact Or.inl h
  | cons t rest ih =>
    rcases ih h with h' | h'
    · rcases mem_sAdd h' with h'' | rfl
      · exact Or.inl h''
      · exact Or.inr (List.mem_cons_self _ _)
    · exact Or.inr (List.mem_cons_of_mem _ h')

theorem mem_sRemove_iff {l : List String} {t x : String} :
    x ∈ sRemove l t ↔ x ∈ l ∧ x ≠ t := by
  simp [sRemove, List.mem_filter]

theorem mem_sAddIf {c : Prop} [Decidable c] {l : List String} {t x : String}
    (h : x ∈ (if c then sAdd l t else l)) : x ∈ l ∨ x = t := by
  split at h
  · exact mem_sAdd h
  · exact Or.inl h

theorem mem_sAddIf_allowed {c : Prop} [Decidable c] {l : List String} {t x : String}
    {allowed : List String} (h : x ∈ (if c then sAdd l t else l))
    (ht : t ∈ allowed) (hl : x ∈ l → x ∈ allowed) : x ∈ allowed := by
  rcases mem_sAddIf h with h' | rfl
  · exact hl h'
  · exact ht

theorem mem_sAdd2If_allowed {c : Prop} [Decidable c] {l : List String} {t1 t2 x : String}
    {allowed : List String} (h : x ∈ (if c then sAdd (sAdd l t1) t2 else l))
    (ht1 : t1 ∈ allowed) (ht2 : t2 ∈ allowed) (hl : x ∈ l → x ∈ allowed) : x ∈ allowed := by
  split at h
  · rcases mem_sAdd h with h' | rfl
    · rcases mem_sAdd h' with h'' | rfl
      · exact hl h''
      · exact ht1
    · exact ht2
  · exact hl h

/-- Tags the static table and structural pass can produce. -/
def structuralTags : List String :=
  ["RAMP", "ARTIFACT", "MANA_ROCK", "TAPPED_ENTRY", "LAND", "CREATURE", "SORCERY",
   "ENCHANTMENT", "DRAW", "REMOVAL", "INSTANT", "BOARD_WIPE", "COUNTERSPELL", "TUTOR",
   "PLANESWALKER"]

/-- Tags the conditional-land pass can additionally produce. -/
def condTags : List String :=
  ["COND_FASTLAND", "COND_COUNT_3_MOUNTAIN", "COND_COUNT_3_ISLAND", "COND_COUNT_3_PLAIN",
   "COND_COUNT_3_SWAMP", "COND_COUNT_3_FOREST"]

theorem static_tags_allowed :
    STATIC_CARD_TAGS.all (fun p => p.2.all (fun t => structuralTags.contains t)) = true := by
  decide

theorem mem_tagsStructural {n tl x : String} (h : x ∈ tagsStructural n tl) :
    x ∈ structuralTags := by
  unfold tagsStructural at h
  refine mem_sAddIf_allowed h (by decide) (fun h => ?_)
  refine mem_sAddIf_allowed h (by decide) (fun h => ?_)
  refine mem_sAddIf_allowed h (by decide) (fun h => ?_)
  refine mem_sAddIf_allowed h (by decide) (fun h => ?_)
  refine mem_sAddIf_allowed h (by decide) (fun h => ?_)
  refine mem_sAddIf_allowed h (by decide) (fun h => ?_)
  refine mem_sAddIf_allowed h (by decide) (fun h => ?_)
  rcases hfind : STATIC_CARD_TAGS.find? (fun p => p.1 = n) with _ | p
  · rw [hfind] at h
    cases h
  · rw [hfind] at h
    rcases mem_foldl_sAdd h with h' | h'
    · cases h'
    · have hp := List.mem_of_find?_eq_some hfind
      have hall := List.all_eq_true.mp static_tags_allowed p hp
      have := List.all_eq_true.mp hall x h'
      exact List.elem_iff.mp this

theorem mem_sAddIf_or {c : Prop} [Decidable c] {l0 l allowed : List String} {t x : String}
    (h : x ∈ (if c then sAdd l t else l)) (ht : t ∈ allowed)
    (hl : x ∈ l → x ∈ l0 ∨ x ∈ allowed) : x ∈ l0 ∨ x ∈ allowed := by
  rcases mem_sAddIf h with h' | rfl
  · exact hl h'
  · exact Or.inr ht

theorem mem_sAdd2If_or {c : Prop} [Decidable c] {l0 l allowed : List String} {t1 t2 x : String}
    (h : x ∈ (if c then sAdd (sAdd l t1) t2 else l)) (ht1 : t1 ∈ allowed) (ht2 : t2 ∈ allowed)
    (hl : x ∈ l → x ∈ l0 ∨ x ∈ allowed) : x ∈ l0 ∨ x ∈ allowed := by
  split at h
  · rcases mem_sAdd h with h' | rfl
    · rcases mem_sAdd h' with h'' | rfl
      · exact hl h''
      · exact Or.inr ht1
    · exact Or.inr ht2
  · exact hl h

theorem mem_tagsFromText {ot x : String} {rx : RxOut} {l : List String}
    (h : x ∈ tagsFromText ot rx l) : x ∈ l ∨ x ∈ structuralTags := by
  unfold tagsFromText at h
  refine mem_sAddIf_or h (by decide) (fun h => ?_)
  refine mem_sAddIf_or h (by decide) (fun h => ?_)
  refine mem_sAddIf_or h (by decide) (fun h => ?_)
  refine mem_sAddIf_or h (by decide) (fun h => ?_)
  refine mem_sAddIf_or h (by decide) (fun h => ?_)
  refine mem_sAddIf_or h (by decide) (fun h => ?_)
  refine mem_sAdd2If_or h (by decide) (by decide) (fun h => ?_)
  refine mem_sAddIf_or h (by decide) (fun h => ?_)
  exact Or.inl h

theorem mem_tagsLandCond {tl x : String} {rx : RxOut} {l : List String}
    (h : x ∈ tagsLandCond tl rx l) : x ∈ l ∨ x ∈ condTags := by
  unfold tagsLandCond at h
  split at h
  · split at h
    · exact Or.inl (mem_sRemove_iff.mp h).1
    · split at h
      · exact Or.inl (mem_sRemove_iff.mp h).1
      · split at h
        · exact Or.inl (mem_sRemove_iff.mp h).1
        · split at h
          · rcases mem_sAdd h with h' | rfl
            · exact Or.inl h'
            · exact Or.inr (by decide)
          · cases hc3 : rx.count3 with
            | none =>
              simp only [hc3] at h
              split at h
              · exact Or.inl h
              · split at h
                · exact Or.inl (mem_sRemove_iff.mp h).1
                · exact Or.inl h
            | some w =>
              simp only [hc3] at h
              rcases mem_sAdd h with h' | rfl
              · exact Or.inl h'
              · refine Or.inr ?_
                cases w <;> decide
  · exact Or.inl h

theorem mem_assign_tags {n tl ot x : String} {rx : RxOut}
    (h : x ∈ assign_tags n tl ot rx) : x ∈ structuralTags ∨ x ∈ condTags := by
  unfold assign_tags at h
  rcases mem_tagsLandCond h with h' | h'
  · rcases mem_tagsFromText h' with h'' | h''
    · exact Or.inl (mem_tagsStructural h'')
    · exact Or.inl h''
  · exact Or.inr h'

/-- C4: the classifier can never produce the `FETCH_LAND` tag — it appears
neither in the static table nor in any text or conditional rule — so when
every battlefield card's tags come from `assign_tags`, fetch resolution
finds no fetchers and returns `false` without touching the state. -/
theorem C4_no_fetch_land (n tl ot : String) (rx : RxOut) :
    "FETCH_LAND" ∉ assign_tags n tl ot rx ∧
    ∀ (σ : List Card → List Card) (st : EState),
      (∀ c ∈ st.gs.battlefield,
        ∃ n2 tl2 ot2 rx2, c.tags = assign_tags n2 tl2 ot2 rx2) →
      resolveFetchLands σ st = (st, false) := by
  have hno : ∀ (n2 tl2 ot2 : String) (rx2 : RxOut),
      "FETCH_LAND" ∉ assign_tags n2 tl2 ot2 rx2 := by
    intro n2 tl2 ot2 rx2 h
    rcases mem_assign_tags h with h' | h' <;> revert h' <;> decide
  refine ⟨hno n tl ot rx, ?_⟩
  intro σ st hbf
  have hfil : st.gs.battlefield.filter (fun c => c.tags.contains "FETCH_LAND") = [] := by
    rw [List.filter_eq_nil_iff]
    intro c hc hcon
    obtain ⟨n2, tl2, ot2, rx2, htags⟩ := hbf c hc
    rw [htags] at hcon
    exact hno n2 tl2 ot2 rx2 (List.elem_iff.mp hcon)
  unfold resolveFetchLands
  rw [hfil]
  rfl

def c8Rx : RxOut :=
  ⟨false, false, false, false, true, false, false, false, false, none, false, false⟩

def c4Fetcher : Card := mkCard 5 "Evolving Wilds" [] 0 "Land"
  "\x7bT\x7d, Sacrifice this land: Search your library for a basic land card"
  (assign_tags "Evolving Wilds" "Land"
    "\x7bT\x7d, Sacrifice this land: Search your library for a basic land card"
    ⟨false, false, false, true, false, false, false, false, false, none, false, false⟩)

def c4State : EState := ⟨{ baseState with battlefield := [c4Fetcher] }, []⟩

/-- Witness for C4: a battlefield holding an Evolving-Wilds-style card whose
tags come from the classifier yields no fetch resolution. -/
theorem C4_no_fetch_land_witness :
    resolveFetchLands id c4State = (c4State, false) := by
  have h := C4_no_fetch_land "Evolving Wilds" "Land" "" c8Rx
  refine h.2 id c4State ?_
  intro c hc
  have hc' : c = c4Fetcher := List.mem_singleton.mp (show c ∈ [c4Fetcher] from hc)
  subst hc'
  exact ⟨"Evolving Wilds", "Land",
    "\x7bT\x7d, Sacrifice this land: Search your library for a basic land card",
    ⟨false, false, false, true, false, false, false, false, false, none, false, false⟩, rfl⟩

theorem tapped_mem_tagsFromText (ot : String) (rx : RxOut) (l : List String)
    (h : rx.tapped_entry = true) : "TAPPED_ENTRY" ∈ tagsFromText ot rx l := by
  unfold tagsFromText
  simp only [h, if_true]
  exact mem_sAdd_self _ _

/-- C8: for a Land whose oracle text earned `TAPPED_ENTRY`, the ordered
exception pass (1) retracts the tag on "unless you control two or more
basic lands", (2) keeps it and adds `COND_FASTLAND` on the fastland
phrasing, (3) keeps it and adds the parameterized `COND_COUNT_3_*` tag on
the count phrasing, and (4) leaves it in place when no recognized
conditional phrasing matches. -/
theorem C8_exception_pass (n tl ot : String) (rx : RxOut)
    (hland : strContains tl "Land" = true) (htap : rx.tapped_entry = true) :
    (rx.unless_two_basic = true → "TAPPED_ENTRY" ∉ assign_tags n tl ot rx) ∧
    (rx.unless_two_basic = false → rx.unless_basic_type = false →
      rx.unless_pay_reveal = false → rx.fastland = true →
      "TAPPED_ENTRY" ∈ assign_tags n tl ot rx ∧
      "COND_FASTLAND" ∈ assign_tags n tl ot rx) ∧
    (∀ w, rx.unless_two_basic = false → rx.unless_basic_type = false →
      rx.unless_pay_reveal = false → rx.fastland = false → rx.count3 = some w →
      "TAPPED_ENTRY" ∈ assign_tags n tl ot rx ∧
      ("COND_COUNT_3_" ++ w.tagWord) ∈ assign_tags n tl ot rx) ∧
    (rx.unless_two_basic = false → rx.unless_basic_type = false →
      rx.unless_pay_reveal = false → rx.fastland = false → rx.count3 = none →
      rx.opp_more_lands = false → rx.enters_if_three = false →
      "TAPPED_ENTRY" ∈ assign_tags n tl ot rx) := by
  have htmid : "TAPPED_ENTRY" ∈ tagsFromText ot rx (tagsStructural n tl) :=
    tapped_mem_tagsFromText ot rx _ htap
  have hcont : (tagsFromText ot rx (tagsStructural n tl)).contains "TAPPED_ENTRY" = true :=
    List.elem_iff.mpr htmid
  refine ⟨?_, ?_, ?_, ?_⟩
  · intro h1
    unfold assign_tags tagsLandCond
    simp only [hland, hcont, h1, Bool.and_self, if_true]
    intro hmem
    exact (mem_sRemove_iff.mp hmem).2 rfl
  · intro h1 h2 h3 h4
    unfold assign_tags tagsLandCond
    simp [hland, hcont, htmid, h1, h2, h3, h4]
    exact ⟨mem_sAdd_left _ htmid, mem_sAdd_self _ _⟩
  · intro w h1 h2 h3 h4 h5
    unfold assign_tags tagsLandCond
    simp [hland, hcont, htmid, h1, h2, h3, h4, h5]
    exact ⟨mem_sAdd_left _ htmid, mem_sAdd_self _ _⟩
  · intro h1 h2 h3 h4 h5 h6 h7
    unfold assign_tags tagsLandCond
    simp [hland, hcont, htmid, h1, h2, h3, h4, h5, h6, h7]

/-- Witness for C8: an unrecognized "enters tapped" land keeps the tag. -/
theorem C8_exception_pass_witness :
    "TAPPED_ENTRY" ∈ assign_tags "Mire" "Land" "" c8Rx := by
  have h := C8_exception_pass "Mire" "Land" "" c8Rx (by decide) rfl
  exact h.2.2.2 rfl rfl rfl rfl rfl rfl rfl

/-! C2: fetch-land resolution. -/

theorem pyEq_type_line {c d : Card} (h : pyEq c d = true) : c.type_line = d.type_line := by
  simp only [pyEq, Bool.and_eq_true, beq_iff_eq] at h
  exact h.1.1.1.1.2

theorem fetchTargetPred_pyEq {c d : Card} (h : pyEq c d = true) :
    fetchTargetPred c = fetchTargetPred d := by
  simp only [fetchTargetPred, Card.is_land, pyEq_type_line h]

theorem findTarget_pyRemove {lib : List Card} {t : Card} (h : findTarget lib = some t) :
    ∃ l₁ l₂, lib = l₁ ++ t :: l₂ ∧ (∀ a ∈ l₁, fetchTargetPred a = false) ∧
      pyRemove lib t = l₁ ++ l₂ := by
  obtain ⟨hpt, as, bs, heq, hpre⟩ := List.find?_eq_some.mp h
  have hpre' : ∀ a ∈ as, fetchTargetPred a = false := by
    intro a ha
    simpa using hpre a ha
  refine ⟨as, bs, heq, hpre', ?_⟩
  rw [heq]
  unfold pyRemove
  rw [List.eraseP_append_right _ ?hpre2]
  case hpre2 =>
    intro b hb hpb
    have hq := fetchTargetPred_pyEq hpb
    rw [hpt, hpre' b hb] at hq
    cases hq
  simp [List.eraseP_cons, pyEq_refl]

def c2Fetcher : Card := mkCard 20 "Evolving Wilds" [] 0 "Land"
  "\x7bT\x7d, Sacrifice this land: Search your library for a basic land card"
  ["LAND", "FETCH_LAND"]

def c2A : Card := mkCard 21 "Opt" [] 1 "Instant" "Draw a card." []

def c2B : Card := mkCard 22 "Ponder" [] 1 "Sorcery" "Look at the top three cards." []

def c2State : EState :=
  ⟨{ baseState with battlefield := [c2Fetcher], library := [c2A, c2B] }, []⟩

/-- C2 counterexample: cracking an eligible fetcher over a library with no
matching land sacrifices the fetcher and returns `true`, but does NOT
reshuffle: with the shuffle instantiated to `List.reverse`, the resulting
library is the untouched `[c2A, c2B]`, not its shuffle `[c2B, c2A]`. -/
theorem C2_counterexample :
    (resolveFetchLands List.reverse c2State).2 = true ∧
    (resolveFetchLands List.reverse c2State).1.gs.graveyard = [c2Fetcher] ∧
    (resolveFetchLands List.reverse c2State).1.gs.library = c2State.gs.library ∧
    List.reverse c2State.gs.library ≠ c2State.gs.library := by
  refine ⟨by decide, by decide, by decide, by decide⟩

/-- C2 (amended): when an eligible fetcher is found it is sacrificed
(battlefield→graveyard) and `true` is returned; when a land target is found
in the library the target moves tapped onto the battlefield and the REST of
the library is reshuffled (multiset preserved when the shuffle permutes);
when NO target is found the sacrifice still happens and `true` is still
returned, but the library is left completely untouched — no reshuffle. -/
theorem C2_fetch_spec (σ : List Card → List Card) (st : EState) (f : Card)
    (hf : (st.gs.battlefield.filter (fun c => c.tags.contains "FETCH_LAND")).find?
            (fetcherEligible st) = some f) :
    (resolveFetchLands σ st).2 = true ∧
    (resolveFetchLands σ st).1.gs.graveyard = st.gs.graveyard ++ [f] ∧
    (resolveFetchLands σ st).1.gs.hand = st.gs.hand ∧
    (∀ t, findTarget st.gs.library = some t →
      (resolveFetchLands σ st).1.gs.battlefield =
        pyRemove st.gs.battlefield f ++ [forceTapped t] ∧
      (resolveFetchLands σ st).1.gs.library = σ (pyRemove st.gs.library t) ∧
      (∃ l₁ l₂, st.gs.library = l₁ ++ t :: l₂ ∧ pyRemove st.gs.library t = l₁ ++ l₂) ∧
      ((∀ l, Multiset.ofList (σ l) = Multiset.ofList l) →
        Multiset.ofList (resolveFetchLands σ st).1.gs.library =
          Multiset.ofList (pyRemove st.gs.library t))) ∧
    (findTarget st.gs.library = none →
      (resolveFetchLands σ st).1.gs.battlefield = pyRemove st.gs.battlefield f ∧
      (resolveFetchLands σ st).1.gs.library = st.gs.library) := by
  rcases hft : findTarget st.gs.library with _ | t
  · simp only [resolveFetchLands, hf, hft]
    refine ⟨trivial, trivial, trivial, ?_, fun _ => ⟨trivial, trivial⟩⟩
    intro t ht
    cases ht
  · simp only [resolveFetchLands, hf, hft]
    refine ⟨trivial, trivial, trivial, ?_, ?_⟩
    · intro t' ht
      injection ht with ht
      subst ht
      obtain ⟨l₁, l₂, hsplit, _, herase⟩ := findTarget_pyRemove hft
      exact ⟨rfl, rfl, ⟨l₁, l₂, hsplit, herase⟩, fun hperm => hperm _⟩
    · intro hnone
      cases hnone

def c2Forest : Card := mkCard 23 "Forest" [] 0 "Basic Land — Forest" "" ["LAND"]

def c2StateB : EState :=
  ⟨{ baseState with battlefield := [c2Fetcher], library := [c2A, c2Forest, c2B] }, []⟩

/-- Witness for C2 (amended) at a concrete fetch that finds a Forest, with
the shuffle instantiated to reversal. -/
theorem C2_fetch_spec_witness :
    (resolveFetchLands List.reverse c2StateB).2 = true ∧
    (resolveFetchLands List.reverse c2StateB).1.gs.graveyard = [c2Fetcher] ∧
    Multiset.ofList (resolveFetchLands List.reverse c2StateB).1.gs.library =
      Multiset.ofList [c2A, c2B] := by
  have hf : (c2StateB.gs.battlefield.filter (fun c => c.tags.contains "FETCH_LAND")).find?
      (fetcherEligible c2StateB) = some c2Fetcher := by decide
  have h := C2_fetch_spec List.reverse c2StateB c2Fetcher hf
  have hft : findTarget c2StateB.gs.library = some c2Forest := by decide
  have htarget := h.2.2.2.1 c2Forest hft
  have hperm : ∀ l : List Card, Multiset.ofList (List.reverse l) = Multiset.ofList l := by
    intro l
    exact Multiset.coe_eq_coe.mpr (List.reverse_perm l)
  refine ⟨h.1, ?_, ?_⟩
  · have := h.2.1
    simpa [c2StateB, baseState] using this
  · have hm := htarget.2.2.2 hperm
    rw [hm]
    have : pyRemove c2StateB.gs.library c2Forest = [c2A, c2B] := by decide
    rw [this]

/-! Shape lemmas for the mana sweeps (they change only pool and tapped). -/

theorem foldl_add_mana_shape : ∀ (l : List Card) (gs : GameState),
    ∃ p, l.foldl (fun gs _ => add_mana gs [("colorless", 1)]) gs = { gs with mana_pool := p } := by
  intro l
  induction l with
  | nil => exact fun gs => ⟨gs.mana_pool, rfl⟩
  | cons c rest ih =>
    intro gs
    obtain ⟨p, hp⟩ := ih (add_mana gs [("colorless", 1)])
    exact ⟨p, by rw [List.foldl_cons, hp]; rfl⟩

theorem sweepLands_shape (st : EState) :
    ∃ p, (sweepLands st).1 = ⟨{ st.gs with mana_pool := p },
      st.tapped ++ ((st.gs.battlefield.filter Card.is_land).filter (landEligible st)).map Card.uid⟩ := by
  obtain ⟨p, hp⟩ :=
    foldl_add_mana_shape ((st.gs.battlefield.filter Card.is_land).filter (landEligible st)) st.gs
  exact ⟨p, by simp only [sweepLands, hp]⟩

theorem rockFold_shape : ∀ (rocks : List Card) (acc : EState × Bool),
    ∃ p ext, (rocks.foldl rockStep acc).1 = ⟨{ acc.1.gs with mana_pool := p }, acc.1.tapped ++ ext⟩ := by
  intro rocks
  induction rocks with
  | nil =>
    intro acc
    refine ⟨acc.1.gs.mana_pool, [], ?_⟩
    simp
  | cons a rest ih =>
    intro acc
    obtain ⟨p, ext, h⟩ := ih (rockStep acc a)
    by_cases he : rockEligible acc.1 a
    · refine ⟨p, a.uid :: ext, ?_⟩
      rw [List.foldl_cons, h]
      simp only [rockStep, he, if_true]
      simp [add_mana]
    · refine ⟨p, ext, ?_⟩
      rw [List.foldl_cons, h]
      simp [rockStep, he]

theorem decision_shape (st : EState) :
    ∃ p ext, (decisionState st).1 = ⟨{ st.gs with mana_pool := p }, st.tapped ++ ext⟩ := by
  obtain ⟨p1, h1⟩ := sweepLands_shape st
  obtain ⟨p2, ext2, h2⟩ := rockFold_shape
    ((sweepLands st).1.gs.battlefield.filter (fun c =>
      c.tags.contains "MANA_ROCK" && c.tags.contains "ARTIFACT")) ((sweepLands st).1, false)
  refine ⟨p2, (((st.gs.battlefield.filter Card.is_land).filter (landEligible st)).map Card.uid) ++ ext2, ?_⟩
  have : (decisionState st).1 = (sweepRocks (sweepLands st).1).1 := rfl
  rw [this]
  unfold sweepRocks
  rw [h2, h1]
  simp

theorem fetch_hand (σ : List Card → List Card) (st : EState) :
    (resolveFetchLands σ st).1.gs.hand = st.gs.hand := by
  rcases hf : (st.gs.battlefield.filter (fun c => c.tags.contains "FETCH_LAND")).find?
      (fetcherEligible st) with _ | f
  · simp only [resolveFetchLands, hf]
  · rcases hft : findTarget st.gs.library with _ | t <;>
      simp only [resolveFetchLands, hf, hft]

/-! C9: characterization of the chosen spell as the earliest maximum-cmc
affordable non-land hand card. -/

/-- Running best of Python `sort(key=cmc, reverse=True)[0]`: the earliest
element of maximal `cmc` (a later element replaces only on strictly
greater `cmc`). -/
def bestFrom (x : Card) : List Card → Card
  | [] => x
  | c :: rest => bestFrom (if c.cmc > x.cmc then c else x) rest

/-- Head of the stable descending sort of `l` appended after an accumulator
head. -/
def pyBest (o : Option Card) (l : List Card) : Option Card :=
  match o, l with
  | none, [] => none
  | none, c :: rest => some (bestFrom c rest)
  | some x, l => some (bestFrom x l)

theorem head_insertDesc (c : Card) (acc : List Card) :
    (insertDesc c acc).head? = some (match acc.head? with
      | none => c
      | some x => if c.cmc > x.cmc then c else x) := by
  cases acc with
  | nil => rfl
  | cons x xs =>
    by_cases h : c.cmc ≤ x.cmc
    · simp [insertDesc, h, Nat.not_lt.mpr h]
    · simp [insertDesc, h, Nat.lt_of_not_le h]

theorem foldl_insertDesc_head : ∀ (l acc : List Card),
    (l.foldl (fun a c => insertDesc c a) acc).head? = pyBest acc.head? l := by
  intro l
  induction l with
  | nil => intro acc; cases acc <;> rfl
  | cons c rest ih =>
    intro acc
    rw [List.foldl_cons, ih]
    cases acc with
    | nil => rfl
    | cons x xs =>
      rw [head_insertDesc]
      rfl

theorem chosenSpell_eq (gs : GameState) : chosenSpell gs = pyBest none (affordableOf gs) := by
  unfold chosenSpell pySortDesc
  exact foldl_insertDesc_head (affordableOf gs) []

theorem cmc_le_bestFrom : ∀ (l : List Card) (x : Card), x.cmc ≤ (bestFrom x l).cmc := by
  intro l
  induction l with
  | nil => exact fun x => Nat.le_refl _
  | cons c rest ih =>
    intro x
    by_cases h : c.cmc > x.cmc
    · simp only [bestFrom, if_pos h]
      exact Nat.le_trans (Nat.le_of_lt h) (ih c)
    · simp only [bestFrom, if_neg h]
      exact ih x

theorem bestFrom_split : ∀ (l : List Card) (x : Card),
    ∃ l₁ l₂, x :: l = l₁ ++ (bestFrom x l) :: l₂ ∧
      (∀ d ∈ l₁, d.cmc < (bestFrom x l).cmc) ∧
      (∀ d ∈ l₂, d.cmc ≤ (bestFrom x l).cmc) := by
  intro l
  induction l with
  | nil => exact fun x => ⟨[], [], rfl, by simp, by simp⟩
  | cons c rest ih =>
    intro x
    by_cases h : c.cmc > x.cmc
    · obtain ⟨m₁, m₂, hsplit, hpre, hsuf⟩ := ih c
      have hb : bestFrom x (c :: rest) = bestFrom c rest := by
        simp [bestFrom, h]
      refine ⟨x :: m₁, m₂, ?_, ?_, ?_⟩
      · rw [hb, List.cons_append, ← hsplit]
      · intro d hd
        rw [hb]
        rcases List.mem_cons.mp hd with rfl | hd'
        · exact Nat.lt_of_lt_of_le h (cmc_le_bestFrom rest c)
        · exact hpre d hd'
      · intro d hd
        rw [hb]
        exact hsuf d hd
    · obtain ⟨m₁, m₂, hsplit, hpre, hsuf⟩ := ih x
      have hb : bestFrom x (c :: rest) = bestFrom x rest := by
        simp [bestFrom, h]
      rcases m₁ with _ | ⟨e, m₁t⟩
      · simp only [List.nil_append] at hsplit
        injection hsplit with h1 h2
        refine ⟨[], c :: rest, ?_, by simp, ?_⟩
        · rw [hb, ← h1, List.nil_append]
        · intro d hd
          rw [hb, ← h1]
          rcases List.mem_cons.mp hd with rfl | hd'
          · exact Nat.le_of_not_lt h
          · have := hsuf d (h2 ▸ hd')
            rw [← h1] at this
            exact this
      · injection hsplit with h1 h2
        subst h1
        refine ⟨x :: c :: m₁t, m₂, ?_, ?_, ?_⟩
        · rw [hb]
          simp only [List.cons_append]
          exact congrArg (fun l => x :: c :: l) h2
        · intro d hd
          rw [hb]
          have hx : x.cmc < (bestFrom x rest).cmc :=
            hpre x (List.mem_cons_self _ _)
          rcases List.mem_cons.mp hd with rfl | hd'
          · exact hx
          · rcases List.mem_cons.mp hd' with rfl | hd''
            · exact Nat.lt_of_le_of_lt (Nat.le_of_not_lt h) hx
            · exact hpre d (List.mem_cons_of_mem _ hd'')
        · intro d hd
          rw [hb]
          exact hsuf d hd


theorem decision_hand (st : EState) : (decisionState st).1.gs.hand = st.gs.hand := by
  obtain ⟨p, ext, hs⟩ := decision_shape st
  rw [hs]

theorem decision_library (st : EState) :
    (decisionState st).1.gs.library = st.gs.library := by
  obtain ⟨p, ext, hs⟩ := decision_shape st
  rw [hs]

theorem decision_battlefield (st : EState) :
    (decisionState st).1.gs.battlefield = st.gs.battlefield := by
  obtain ⟨p, ext, hs⟩ := decision_shape st
  rw [hs]

theorem decision_graveyard (st : EState) :
    (decisionState st).1.gs.graveyard = st.gs.graveyard := by
  obtain ⟨p, ext, hs⟩ := decision_shape st
  rw [hs]

theorem decision_tapped (st : EState) :
    ∃ ext, (decisionState st).1.tapped = st.tapped ++ ext := by
  obtain ⟨p, ext, hs⟩ := decision_shape st
  exact ⟨ext, by rw [hs]⟩

theorem fetch_false_eq {σ : List Card → List Card} {st st' : EState}
    (h : resolveFetchLands σ st = (st', false)) : st' = st := by
  rcases hf : (st.gs.battlefield.filter (fun c => c.tags.contains "FETCH_LAND")).find?
      (fetcherEligible st) with _ | f
  · rw [resolveFetchLands, hf] at h
    injection h with h1 _
    exact h1.symm
  · rcases hft : findTarget st.gs.library with _ | t <;>
      simp only [resolveFetchLands, hf, hft] at h
    · exact absurd (congrArg Prod.snd h) (by simp)
    · exact absurd (congrArg Prod.snd h) (by simp)

/-- C9: in each loop pass the chosen spell is the affordable non-land hand
card of maximal mana value, ties broken by hand order (every affordable
card before it is strictly cheaper, every one after it no more expensive);
when no affordable non-land card exists, the pass casts nothing (the hand
is unchanged by the pass). -/
theorem C9_spell_choice (gs : GameState) :
    (chosenSpell gs = none ↔ affordableOf gs = []) ∧
    (∀ c, chosenSpell gs = some c →
      ∃ l₁ l₂, affordableOf gs = l₁ ++ c :: l₂ ∧
        (∀ d ∈ l₁, d.cmc < c.cmc) ∧ (∀ d ∈ l₂, d.cmc ≤ c.cmc)) ∧
    (∀ σ st st' cont, loopBody σ st = .next st' cont →
      chosenSpell (decisionState st).1.gs = none → st'.gs.hand = st.gs.hand) := by
  refine ⟨?_, ?_, ?_⟩
  · rw [chosenSpell_eq]
    cases haff : affordableOf gs with
    | nil => simp [pyBest]
    | cons x rest => simp [pyBest]
  · intro c hc
    rw [chosenSpell_eq] at hc
    cases haff : affordableOf gs with
    | nil =>
      rw [haff] at hc
      simp [pyBest] at hc
    | cons x rest =>
      rw [haff] at hc
      have hc' : bestFrom x rest = c := by
        simpa [pyBest] using hc
      obtain ⟨l₁, l₂, hsplit, hpre, hsuf⟩ := bestFrom_split rest x
      rw [hc'] at hsplit hpre hsuf
      exact ⟨l₁, l₂, hsplit, hpre, hsuf⟩
  · intro σ st st' cont h hnone
    rcases hd : decisionState st with ⟨st2, manaAdded⟩
    have hhand : st2.gs.hand = st.gs.hand := by
      have := decision_hand st
      rw [hd] at this
      exact this
    rw [hd] at hnone
    simp only [loopBody, hd] at h
    simp only [hnone] at h
    cases hm : manaAdded with
    | true =>
      rw [hm] at h
      simp only [if_true] at h
      injection h with h1 _
      rw [← h1, hhand]
    | false =>
      rw [hm] at h
      simp only [Bool.false_eq_true, if_false] at h
      rcases hfetch : resolveFetchLands σ st2 with ⟨st3, b⟩
      have hh3 : st3.gs.hand = st2.gs.hand := by
        have := fetch_hand σ st2
        rw [hfetch] at this
        exact this
      rw [hfetch] at h
      cases b
      · simp only at h
        injection h with h1 _
        rw [← h1, hh3, hhand]
      · simp only at h
        injection h with h1 _
        rw [← h1, hh3, hhand]

def c9Cheap : Card := mkCard 30 "Arcane Signet" [("colorless", 1)] 1 "Artifact"
  "add one mana" ["RAMP", "ARTIFACT", "MANA_ROCK"]

def c9Big : Card := mkCard 31 "Thran Dynamo" [("colorless", 3)] 3 "Artifact"
  "add three mana" ["RAMP", "ARTIFACT", "MANA_ROCK"]

def c9Gs : GameState :=
  { baseState with hand := [c9Cheap, c9Big], mana_pool := [("colorless", 4)] }

/-- Witness for C9: with four mana and a hand of a 1-cost and a 3-cost
artifact, the 3-cost one is chosen. -/
theorem C9_spell_choice_witness :
    chosenSpell c9Gs = some c9Big ∧
    ∃ l₁ l₂, affordableOf c9Gs = l₁ ++ c9Big :: l₂ ∧
      (∀ d ∈ l₁, d.cmc < c9Big.cmc) ∧ (∀ d ∈ l₂, d.cmc ≤ c9Big.cmc) := by
  have h := C9_spell_choice c9Gs
  have hc : chosenSpell c9Gs = some c9Big := by decide
  exact ⟨hc, h.2.1 c9Big hc⟩


/-! C7: termination and iteration bound of the main-phase fixed-point loop. -/

/-- Battlefield permanents not yet in the tapped set. -/
def untappedCount (st : EState) : Nat :=
  st.gs.battlefield.countP (fun c => !st.tapped.contains c.uid)

/-- Decreasing measure of the loop: every continuing pass lowers it. -/
def loopMeasure (st : EState) : Nat :=
  3 * st.gs.hand.length + 2 * st.gs.library.length +
    st.gs.battlefield.length + untappedCount st

/-- Iteration bound stated by the specification: battlefield size + hand
size + number of fetch-lands on the battlefield. -/
def claimBound (st : EState) : Nat :=
  st.gs.battlefield.length + st.gs.hand.length +
    (st.gs.battlefield.filter (fun c => c.tags.contains "FETCH_LAND")).length

def c7Crypt1 : Card := mkCard 40 "Mana Crypt" [] 0 "Artifact"
  "add two mana" ["RAMP", "ARTIFACT", "MANA_ROCK"]

def c7Crypt2 : Card := mkCard 41 "Mana Crypt" [] 0 "Artifact"
  "add two mana" ["RAMP", "ARTIFACT", "MANA_ROCK"]

def c7St : EState := ⟨{ baseState with hand := [c7Crypt1, c7Crypt2] }, []⟩

/-- C7 counterexample: with an empty battlefield and two free mana rocks in
hand, the specification's bound is battlefield + hand + fetchers = 2, yet
the loop needs 4 passes (cast, tap + cast, tap, idle) — with fuel 2 it has
not reached its exit condition, while with fuel 4 it finishes in exactly 4
passes.  Each cast mana rock becomes a new tappable source, so the stated
bound is exceeded. -/
theorem C7_counterexample :
    claimBound c7St = 2 ∧
    (runLoop id (claimBound c7St) c7St).2.2 = false ∧
    (runLoop id 4 c7St).2.2 = true ∧
    (runLoop id 4 c7St).2.1 = 4 := by
  exact ⟨by decide, by decide, by decide, by decide⟩

theorem contains_append_left {l l' : List Nat} {u : Nat} (h : l.contains u = true) :
    (l ++ l').contains u = true :=
  List.elem_iff.mpr (List.mem_append.mpr (Or.inl (List.elem_iff.mp h)))

theorem contains_append_of_right {l l' : List Nat} {u : Nat} (h : l'.contains u = true) :
    (l ++ l').contains u = true :=
  List.elem_iff.mpr (List.mem_append.mpr (Or.inr (List.elem_iff.mp h)))

theorem contains_false_of_append {l l' : List Nat} {u : Nat}
    (h : (l ++ l').contains u = false) : l.contains u = false := by
  cases hc : l.contains u
  · rfl
  · rw [contains_append_left hc] at h
    cases h

theorem countP_lt_of_newly_tapped {bf : List Card} {t t' : List Nat}
    (hsub : ∀ u, t.contains u = true → t'.contains u = true)
    {a : Card} (ha : a ∈ bf) (h0 : t.contains a.uid = false)
    (h1 : t'.contains a.uid = true) :
    bf.countP (fun c => !t'.contains c.uid) < bf.countP (fun c => !t.contains c.uid) := by
  induction bf with
  | nil => cases ha
  | cons c rest ih =>
    have hmono : rest.countP (fun c => !t'.contains c.uid) ≤
        rest.countP (fun c => !t.contains c.uid) := by
      refine List.countP_mono_left ?_
      intro x _ hx
      simp only [Bool.not_eq_true'] at hx ⊢
      cases hct : t.contains x.uid
      · rfl
      · rw [hsub _ hct] at hx
        cases hx
    rcases List.mem_cons.mp ha with rfl | ha'
    · rw [List.countP_cons, List.countP_cons]
      have e1 : (if (!t'.contains a.uid) = true then 1 else 0) = 0 := by rw [h1]; rfl
      have e2 : (if (!t.contains a.uid) = true then 1 else 0) = 1 := by rw [h0]; rfl
      rw [e1, e2]
      omega
    · have hrest := ih ha'
      rw [List.countP_cons, List.countP_cons]
      by_cases hc2 : t.contains c.uid = true
      · have hs' := hsub _ hc2
        have e1 : (if (!t'.contains c.uid) = true then 1 else 0) = 0 := by rw [hs']; rfl
        have e2 : (if (!t.contains c.uid) = true then 1 else 0) = 0 := by rw [hc2]; rfl
        rw [e1, e2]
        omega
      · have hc2' : t.contains c.uid = false := by
          cases hcc : t.contains c.uid
          · rfl
          · exact absurd hcc hc2
        have e2 : (if (!t.contains c.uid) = true then 1 else 0) = 1 := by rw [hc2']; rfl
        have e1 : (if (!t'.contains c.uid) = true then 1 else 0) ≤ 1 := by
          cases hct' : t'.contains c.uid
          · exact Nat.le_refl 1
          · exact Nat.zero_le 1
        rw [e2]
        omega

theorem countP_le_of_tapped_sub {bf : List Card} {t t' : List Nat}
    (hsub : ∀ u, t.contains u = true → t'.contains u = true) :
    bf.countP (fun c => !t'.contains c.uid) ≤ bf.countP (fun c => !t.contains c.uid) := by
  refine List.countP_mono_left ?_
  intro x _ hx
  simp only [Bool.not_eq_true'] at hx ⊢
  cases hct : t.contains x.uid
  · rfl
  · rw [hsub _ hct] at hx
    cases hx

theorem decision_untapped_le (st : EState) :
    untappedCount (decisionState st).1 ≤ untappedCount st := by
  obtain ⟨p, ext, hs⟩ := decision_shape st
  unfold untappedCount
  rw [hs]
  exact countP_le_of_tapped_sub (fun u hu => contains_append_left hu)

theorem rockFold_fired : ∀ (rocks : List Card) (acc : EState × Bool),
    (rocks.foldl rockStep acc).2 = true →
    acc.2 = true ∨ ∃ a ∈ rocks, acc.1.tapped.contains a.uid = false ∧
      (rocks.foldl rockStep acc).1.tapped.contains a.uid = true := by
  intro rocks
  induction rocks with
  | nil => exact fun acc h => Or.inl h
  | cons a rest ih =>
    intro acc h
    rw [List.foldl_cons] at h
    obtain ⟨p, ext, hshape⟩ := rockFold_shape rest (rockStep acc a)
    rcases ih (rockStep acc a) h with h' | ⟨b, hb, hb0, hb1⟩
    · by_cases he : rockEligible acc.1 a
      · refine Or.inr ⟨a, List.mem_cons_self _ _, ?_, ?_⟩
        · have : rockEligible acc.1 a = true := he
          unfold rockEligible at this
          rw [Bool.and_eq_true] at this
          have h0 := this.1
          simpa using h0
        · rw [List.foldl_cons, hshape]
          simp only [rockStep, he, if_true]
          exact contains_append_left (contains_append_of_right (by simp))
      · rw [rockStep, if_neg he] at h'
        exact Or.inl h'
    · refine Or.inr ⟨b, List.mem_cons_of_mem _ hb, ?_, ?_⟩
      · by_cases he : rockEligible acc.1 a
        · rw [rockStep, if_pos he] at hb0
          exact contains_false_of_append hb0
        · rw [rockStep, if_neg he] at hb0
          exact hb0
      · rw [List.foldl_cons]
        exact hb1

theorem decision_untapped_lt (st : EState) (h2 : (decisionState st).2 = true) :
    untappedCount (decisionState st).1 < untappedCount st := by
  obtain ⟨pL, hL⟩ := sweepLands_shape st
  have hrocks : (decisionState st).1 = (sweepRocks (sweepLands st).1).1 := rfl
  obtain ⟨pR, extR, hR⟩ := rockFold_shape
    ((sweepLands st).1.gs.battlefield.filter (fun c =>
      c.tags.contains "MANA_ROCK" && c.tags.contains "ARTIFACT")) ((sweepLands st).1, false)
  have hflag : (decisionState st).2 = ((sweepLands st).2 || (sweepRocks (sweepLands st).1).2) := rfl
  rw [hflag] at h2
  rcases Bool.or_eq_true_iff.mp h2 with hlands | hrocksAdded
  · -- a land was tapped
    have hne : ((st.gs.battlefield.filter Card.is_land).filter (landEligible st)) ≠ [] := by
      intro hnil
      have : (sweepLands st).2 = false := by
        simp [sweepLands, hnil]
      rw [this] at hlands
      cases hlands
    obtain ⟨u, hu⟩ := List.exists_mem_of_ne_nil _ hne
    have humem : u ∈ st.gs.battlefield :=
      List.mem_of_mem_filter (List.mem_of_mem_filter hu)
    have huelig : landEligible st u = true := List.of_mem_filter hu
    have hu0 : st.tapped.contains u.uid = false := by
      unfold landEligible at huelig
      rw [Bool.and_eq_true] at huelig
      rw [Bool.and_eq_true] at huelig
      rw [Bool.and_eq_true] at huelig
      have := huelig.1.1.1
      simpa using this
    have hu1 : (decisionState st).1.tapped.contains u.uid = true := by
      rw [hrocks, show (sweepRocks (sweepLands st).1) =
        ((sweepLands st).1.gs.battlefield.filter (fun c =>
          c.tags.contains "MANA_ROCK" && c.tags.contains "ARTIFACT")).foldl
          rockStep ((sweepLands st).1, false) from rfl, hR]
      refine contains_append_left ?_
      rw [hL]
      refine contains_append_of_right ?_
      exact List.elem_iff.mpr (List.mem_map.mpr ⟨u, hu, rfl⟩)
    obtain ⟨p, ext, hs⟩ := decision_shape st
    unfold untappedCount
    rw [hs]
    rw [hs] at hu1
    refine countP_lt_of_newly_tapped (fun v hv => contains_append_left hv) humem hu0 hu1
  · -- a rock was tapped
    rcases rockFold_fired _ _ hrocksAdded with hfalse | ⟨a, ha, ha0, ha1⟩
    · cases hfalse
    · have hamem : a ∈ st.gs.battlefield := by
        have := List.mem_of_mem_filter ha
        rw [hL] at this
        exact this
      have ha0' : st.tapped.contains a.uid = false := by
        rw [hL] at ha0
        exact contains_false_of_append ha0
      have ha1' : (decisionState st).1.tapped.contains a.uid = true := by
        rw [hrocks]
        exact ha1
      obtain ⟨p, ext, hs⟩ := decision_shape st
      unfold untappedCount
      rw [hs]
      rw [hs] at ha1'
      exact countP_lt_of_newly_tapped (fun v hv => contains_append_left hv) hamem ha0' ha1'


theorem cast_ok_fields {s : GameState} {card : Card} {m : Dict} {gs' : GameState}
    (h : cast_spell s card m = .ok gs') :
    pyMem card s.hand = true ∧ can_afford s m = true ∧
    gs'.hand = pyRemove s.hand card ∧ gs'.library = s.library ∧
    dtotal gs'.mana_pool = dtotal s.mana_pool - dtotal m ∧
    ((gs'.battlefield = s.battlefield ++ [card] ∧ gs'.graveyard = s.graveyard) ∨
     (gs'.battlefield = s.battlefield ∧ gs'.graveyard = s.graveyard ++ [card])) := by
  unfold cast_spell at h
  by_cases hm : pyMem card s.hand
  · by_cases ha : can_afford s m
    · rw [if_neg (by simp [hm]), if_neg (by simp [ha])] at h
      by_cases hp : card.is_permanent
      · rw [if_pos hp] at h
        injection h with h'
        subst h'
        exact ⟨hm, ha, rfl, rfl, dtotal_payFold m s.mana_pool, Or.inl ⟨rfl, rfl⟩⟩
      · rw [if_neg hp] at h
        injection h with h'
        subst h'
        exact ⟨hm, ha, rfl, rfl, dtotal_payFold m s.mana_pool, Or.inr ⟨rfl, rfl⟩⟩
    · rw [if_neg (by simp [hm]), if_pos (by simp [ha])] at h
      cases h
  · rw [if_pos (by simp [hm])] at h
    cases h

theorem hand_pos_of_pyMem {l : List Card} {c : Card} (h : pyMem c l = true) : 1 ≤ l.length := by
  simp only [pyMem, List.any_eq_true] at h
  obtain ⟨d, hd, _⟩ := h
  exact List.length_pos.mpr (List.ne_nil_of_mem hd)

theorem cast_measure {st2 : EState} {spell : Card} {gs' : GameState}
    (hc : cast_spell st2.gs spell spell.mana_cost = .ok gs') :
    loopMeasure ⟨gs', st2.tapped⟩ < loopMeasure st2 := by
  obtain ⟨hm, _, hhand, hlib, _, hbf⟩ := cast_ok_fields hc
  have hlen : gs'.hand.length = st2.gs.hand.length - 1 := by
    rw [hhand]
    exact length_pyRemove_of_pyMem hm
  have hpos := hand_pos_of_pyMem hm
  unfold loopMeasure untappedCount
  dsimp only
  rcases hbf with ⟨hb, _⟩ | ⟨hb, _⟩
  · rw [hlen, hlib, hb]
    have hcnt : (st2.gs.battlefield ++ [spell]).countP
        (fun c => !st2.tapped.contains c.uid) ≤
        st2.gs.battlefield.countP (fun c => !st2.tapped.contains c.uid) + 1 := by
      rw [List.countP_append, List.countP_singleton]
      split <;> omega
    rw [List.length_append]
    simp only [List.length_singleton]
    omega
  · rw [hlen, hlib, hb]
    omega

theorem fetch_measure {σ : List Card → List Card}
    (hσ : ∀ l : List Card, (σ l).length = l.length) {st st' : EState}
    (h : resolveFetchLands σ st = (st', true)) : loopMeasure st' < loopMeasure st := by
  rcases hf : (st.gs.battlefield.filter (fun c => c.tags.contains "FETCH_LAND")).find?
      (fetcherEligible st) with _ | f
  · rw [resolveFetchLands, hf] at h
    exact absurd (congrArg Prod.snd h) (by simp)
  · have hfm : f ∈ st.gs.battlefield :=
      List.mem_of_mem_filter (List.mem_of_find?_eq_some hf)
    have hbflen : (pyRemove st.gs.battlefield f).length = st.gs.battlefield.length - 1 :=
      length_pyRemove_of_pyMem (pyMem_of_mem hfm)
    have hbfpos : 1 ≤ st.gs.battlefield.length :=
      List.length_pos.mpr (List.ne_nil_of_mem hfm)
    have hcnt : (pyRemove st.gs.battlefield f).countP (fun c => !st.tapped.contains c.uid) ≤
        st.gs.battlefield.countP (fun c => !st.tapped.contains c.uid) :=
      (List.eraseP_sublist _).countP_le _
    rcases hft : findTarget st.gs.library with _ | t
    · simp only [resolveFetchLands, hf, hft] at h
      rw [Prod.mk.injEq] at h
      obtain ⟨h1, _⟩ := h
      subst h1
      unfold loopMeasure untappedCount
      dsimp only
      omega
    · have htm : t ∈ st.gs.library := List.mem_of_find?_eq_some hft
      have hliblen : (pyRemove st.gs.library t).length = st.gs.library.length - 1 :=
        length_pyRemove_of_pyMem (pyMem_of_mem htm)
      have hlibpos : 1 ≤ st.gs.library.length := List.length_pos.mpr (List.ne_nil_of_mem htm)
      simp only [resolveFetchLands, hf, hft] at h
      rw [Prod.mk.injEq] at h
      obtain ⟨h1, _⟩ := h
      subst h1
      unfold loopMeasure untappedCount
      dsimp only
      have hσl := hσ (pyRemove st.gs.library t)
      have hcnt2 : (pyRemove st.gs.battlefield f ++ [forceTapped t]).countP
          (fun c => !st.tapped.contains c.uid) ≤
          st.gs.battlefield.countP (fun c => !st.tapped.contains c.uid) + 1 := by
        rw [List.countP_append, List.countP_singleton]
        split <;> omega
      rw [List.length_append, hσl]
      simp only [List.length_singleton]
      omega

theorem decision_measure_le (st : EState) :
    loopMeasure (decisionState st).1 ≤ loopMeasure st := by
  have h1 := decision_untapped_le st
  unfold loopMeasure
  rw [decision_hand, decision_library, decision_battlefield]
  omega

theorem decision_measure_lt (st : EState) (h : (decisionState st).2 = true) :
    loopMeasure (decisionState st).1 < loopMeasure st := by
  have h1 := decision_untapped_lt st h
  unfold loopMeasure
  rw [decision_hand, decision_library, decision_battlefield]
  omega

theorem loopBody_measure {σ : List Card → List Card}
    (hσ : ∀ l : List Card, (σ l).length = l.length) {st st' : EState}
    (h : loopBody σ st = .next st' true) : loopMeasure st' < loopMeasure st := by
  rcases hd : decisionState st with ⟨st2, manaAdded⟩
  have hle : loopMeasure st2 ≤ loopMeasure st := by
    have := decision_measure_le st
    rw [hd] at this
    exact this
  have hlt : manaAdded = true → loopMeasure st2 < loopMeasure st := by
    intro hm
    have := decision_measure_lt st (by rw [hd]; exact hm)
    rw [hd] at this
    exact this
  simp only [loopBody, hd] at h
  rcases hc : chosenSpell st2.gs with _ | spell
  · simp only [hc] at h
    cases hm : manaAdded
    · rw [hm] at h
      simp only [Bool.false_eq_true, if_false] at h
      rcases hfe : resolveFetchLands σ st2 with ⟨st3, b⟩
      rw [hfe] at h
      cases b
      · injection h with h1 h2
        cases h2
      · injection h with h1 h2
        subst h1
        exact Nat.lt_of_lt_of_le (fetch_measure hσ hfe) hle
    · rw [hm] at h
      simp only [if_true] at h
      injection h with h1 h2
      subst h1
      exact hlt hm
  · simp only [hc] at h
    rcases hcast : cast_spell st2.gs spell spell.mana_cost with _ | _ | gs'
    · simp only [hcast] at h
      cases hm : manaAdded
      · rw [hm] at h
        simp only [Bool.false_eq_true, if_false] at h
        rcases hfe : resolveFetchLands σ st2 with ⟨st3, b⟩
        rw [hfe] at h
        cases b
        · injection h with h1 h2
          cases h2
        · injection h with h1 h2
          subst h1
          exact Nat.lt_of_lt_of_le (fetch_measure hσ hfe) hle
      · rw [hm] at h
        simp only [if_true] at h
        injection h with h1 h2
        subst h1
        exact hlt hm
    · simp only [hcast] at h
      cases h
    · simp only [hcast] at h
      injection h with h1 h2
      subst h1
      exact Nat.lt_of_lt_of_le (cast_measure hcast) hle

/-- C7 (amended): the main-phase fixed-point loop always terminates, and its
pass count is bounded by `loopMeasure + 1` at loop start, where
`loopMeasure = 3·hand + 2·library + battlefield + untapped-battlefield`
(so at most `3·hand + 2·library + 2·battlefield + 1` passes).  The
specification's bound `battlefield + hand + fetch-lands` is too small (see
the counterexample): each cast mana rock becomes a new tappable source, and
fetched lands can themselves be fetch-lands. -/
theorem C7_loop_termination (σ : List Card → List Card)
    (hσ : ∀ l : List Card, (σ l).length = l.length) :
    ∀ (fuel : Nat) (st : EState), loopMeasure st < fuel →
      (runLoop σ fuel st).2.2 = true ∧ (runLoop σ fuel st).2.1 ≤ loopMeasure st + 1 := by
  intro fuel
  induction fuel with
  | zero => exact fun st h => absurd h (Nat.not_lt_zero _)
  | succ f ih =>
    intro st hM
    rcases hb : loopBody σ st with _ | ⟨st', cont⟩
    · have hr : runLoop σ (f + 1) st = (st, 1, true) := by
        simp [runLoop, hb]
      rw [hr]
      refine ⟨rfl, ?_⟩
      show 1 ≤ loopMeasure st + 1
      omega
    · cases cont
      · have hr : runLoop σ (f + 1) st = (st', 1, true) := by
          simp [runLoop, hb]
        rw [hr]
        refine ⟨rfl, ?_⟩
        show 1 ≤ loopMeasure st + 1
        omega
      · have hmeas := loopBody_measure hσ hb
        have hih := ih st' (by omega)
        have hr : runLoop σ (f + 1) st =
            ((runLoop σ f st').1, (runLoop σ f st').2.1 + 1, (runLoop σ f st').2.2) := by
          simp [runLoop, hb]
        rw [hr]
        refine ⟨hih.1, ?_⟩
        show (runLoop σ f st').2.1 + 1 ≤ loopMeasure st + 1
        have := hih.2
        omega

/-- Witness for C7 (amended): the two-mana-crypt state finishes within its
measure bound (measure 6, so at most 7 passes). -/
theorem C7_loop_termination_witness :
    (runLoop id (loopMeasure c7St + 1) c7St).2.2 = true ∧
    (runLoop id (loopMeasure c7St + 1) c7St).2.1 ≤ loopMeasure c7St + 1 :=
  C7_loop_termination id (fun _ => rfl) (loopMeasure c7St + 1) c7St (by omega)


/-! C6: zone partition and card conservation. -/

/-- Combined size of the four zones. -/
def zoneCount (s : GameState) : Nat :=
  s.library.length + s.hand.length + s.battlefield.length + s.graveyard.length

/-- Occurrences of the card identity `u` across the four zones. -/
def uidCount (u : Nat) (s : GameState) : Nat :=
  s.library.countP (fun c => c.uid == u) + s.hand.countP (fun c => c.uid == u) +
    s.battlefield.countP (fun c => c.uid == u) + s.graveyard.countP (fun c => c.uid == u)

theorem find?_eraseP {α : Type} {p : α → Bool} {l : List α} {a : α}
    (h : l.find? p = some a) :
    ∃ l₁ l₂, l = l₁ ++ a :: l₂ ∧ l.eraseP p = l₁ ++ l₂ := by
  obtain ⟨hpa, as, bs, heq, hpre⟩ := List.find?_eq_some.mp h
  refine ⟨as, bs, heq, ?_⟩
  rw [heq, List.eraseP_append_right _ (fun b hb => by simpa using hpre b hb),
    List.eraseP_cons_of_pos hpa]

theorem countP_split (u : Nat) (l₁ l₂ : List Card) (card : Card) :
    (l₁ ++ card :: l₂).countP (fun c => c.uid == u) =
      (l₁ ++ l₂).countP (fun c => c.uid == u) + (if (card.uid == u) = true then 1 else 0) := by
  rw [List.countP_append, List.countP_append, List.countP_cons]
  omega

theorem countP_snoc (u : Nat) (l : List Card) (card : Card) :
    (l ++ [card]).countP (fun c => c.uid == u) =
      l.countP (fun c => c.uid == u) + (if (card.uid == u) = true then 1 else 0) := by
  rw [List.countP_append, List.countP_singleton]

theorem zoneCount_draw (s : GameState) : zoneCount (draw_card s).1 = zoneCount s := by
  rcases hl : s.library with _ | ⟨c, rest⟩
  · rw [draw_card, hl]
  · rw [draw_card, hl]
    unfold zoneCount
    dsimp only
    rw [hl, List.length_append]
    simp only [List.length_cons, List.length_singleton, List.length_nil]
    omega

theorem uidCount_draw (s : GameState) (u : Nat) :
    uidCount u (draw_card s).1 = uidCount u s := by
  rcases hl : s.library with _ | ⟨c, rest⟩
  · rw [draw_card, hl]
  · rw [draw_card, hl]
    unfold uidCount
    dsimp only
    rw [hl, List.countP_cons, countP_snoc]
    omega

theorem zoneCount_play (s : GameState) (card : Card) :
    zoneCount (play_land s card).1 = zoneCount s := by
  unfold play_land
  by_cases h1 : s.land_played_this_turn.isSome
  · rw [if_pos h1]
  · rw [if_neg h1]
    by_cases h2 : pyMem card s.hand
    · rw [if_neg (by simp [h2])]
      by_cases h3 : card.is_land
      · rw [if_neg (by simp [h3])]
        unfold zoneCount
        dsimp only
        rw [length_pyRemove_of_pyMem h2, List.length_append]
        have := hand_pos_of_pyMem h2
        simp only [List.length_singleton]
        omega
      · rw [if_pos (by simp [h3])]
    · rw [if_pos (by simp [h2])]

theorem uidCount_play (s : GameState) (card : Card)
    (hfind : s.hand.find? (fun d => pyEq d card) = some card) (u : Nat) :
    uidCount u (play_land s card).1 = uidCount u s := by
  unfold play_land
  by_cases h1 : s.land_played_this_turn.isSome
  · rw [if_pos h1]
  · rw [if_neg h1]
    by_cases h2 : pyMem card s.hand
    · rw [if_neg (by simp [h2])]
      by_cases h3 : card.is_land
      · rw [if_neg (by simp [h3])]
        obtain ⟨l₁, l₂, hsplit, herase⟩ := find?_eraseP hfind
        unfold uidCount
        dsimp only
        rw [show pyRemove s.hand card = l₁ ++ l₂ from herase, countP_snoc]
        conv_rhs => rw [hsplit]
        rw [countP_split]
        omega
      · rw [if_pos (by simp [h3])]
    · rw [if_pos (by simp [h2])]

theorem zoneCount_cast {s : GameState} {card : Card} {m : Dict} {gs' : GameState}
    (h : cast_spell s card m = .ok gs') : zoneCount gs' = zoneCount s := by
  obtain ⟨hm, _, hhand, hlib, _, hbf⟩ := cast_ok_fields h
  have hpos := hand_pos_of_pyMem hm
  unfold zoneCount
  rw [hhand, hlib, length_pyRemove_of_pyMem hm]
  rcases hbf with ⟨hb, hg⟩ | ⟨hb, hg⟩ <;> rw [hb, hg, List.length_append] <;>
    simp only [List.length_singleton] <;> omega

theorem uidCount_cast {s : GameState} {card : Card} {m : Dict} {gs' : GameState}
    (h : cast_spell s card m = .ok gs')
    (hfind : s.hand.find? (fun d => pyEq d card) = some card) (u : Nat) :
    uidCount u gs' = uidCount u s := by
  obtain ⟨hm, _, hhand, hlib, _, hbf⟩ := cast_ok_fields h
  obtain ⟨l₁, l₂, hsplit, herase⟩ := find?_eraseP hfind
  unfold uidCount
  rw [hhand, hlib, show pyRemove s.hand card = l₁ ++ l₂ from herase]
  conv_rhs => rw [hsplit]
  rw [countP_split]
  rcases hbf with ⟨hb, hg⟩ | ⟨hb, hg⟩ <;> rw [hb, hg, countP_snoc] <;> omega

theorem uid_forceTapped (t : Card) : (forceTapped t).uid = t.uid := by
  unfold forceTapped
  split <;> rfl


theorem zoneCount_fetch {σ : List Card → List Card}
    (hσ : ∀ l : List Card, (σ l).Perm l) {st : EState} {r : EState × Bool}
    (h : resolveFetchLands σ st = r) : zoneCount r.1.gs = zoneCount st.gs := by
  rcases hf : (st.gs.battlefield.filter (fun c => c.tags.contains "FETCH_LAND")).find?
      (fetcherEligible st) with _ | f
  · rw [resolveFetchLands, hf] at h
    subst h
    rfl
  · have hfm : f ∈ st.gs.battlefield :=
      List.mem_of_mem_filter (List.mem_of_find?_eq_some hf)
    have hbfpos : 1 ≤ st.gs.battlefield.length :=
      List.length_pos.mpr (List.ne_nil_of_mem hfm)
    rcases hft : findTarget st.gs.library with _ | t
    · simp only [resolveFetchLands, hf, hft] at h
      subst h
      unfold zoneCount
      dsimp only
      rw [length_pyRemove_of_pyMem (pyMem_of_mem hfm), List.length_append]
      simp only [List.length_singleton]
      omega
    · have htm : t ∈ st.gs.library := List.mem_of_find?_eq_some hft
      have hlibpos : 1 ≤ st.gs.library.length :=
        List.length_pos.mpr (List.ne_nil_of_mem htm)
      simp only [resolveFetchLands, hf, hft] at h
      subst h
      unfold zoneCount
      dsimp only
      rw [(hσ (pyRemove st.gs.library t)).length_eq,
        length_pyRemove_of_pyMem (pyMem_of_mem htm), List.length_append,
        length_pyRemove_of_pyMem (pyMem_of_mem hfm), List.length_append]
      simp only [List.length_singleton]
      omega

theorem uidCount_fetch {σ : List Card → List Card}
    (hσ : ∀ l : List Card, (σ l).Perm l) {st : EState} {r : EState × Bool}
    (h : resolveFetchLands σ st = r)
    (hid : ∀ f, (st.gs.battlefield.filter (fun c => c.tags.contains "FETCH_LAND")).find?
        (fetcherEligible st) = some f →
        st.gs.battlefield.find? (fun d => pyEq d f) = some f) (u : Nat) :
    uidCount u r.1.gs = uidCount u st.gs := by
  rcases hf : (st.gs.battlefield.filter (fun c => c.tags.contains "FETCH_LAND")).find?
      (fetcherEligible st) with _ | f
  · rw [resolveFetchLands, hf] at h
    subst h
    rfl
  · obtain ⟨b₁, b₂, hbsplit, hberase⟩ := find?_eraseP (hid f hf)
    rcases hft : findTarget st.gs.library with _ | t
    · simp only [resolveFetchLands, hf, hft] at h
      subst h
      unfold uidCount
      dsimp only
      rw [show pyRemove st.gs.battlefield f = b₁ ++ b₂ from hberase, countP_snoc]
      conv_rhs => rw [hbsplit]
      rw [countP_split]
      omega
    · obtain ⟨l₁, l₂, hlsplit, _, hlerase⟩ := findTarget_pyRemove hft
      simp only [resolveFetchLands, hf, hft] at h
      subst h
      unfold uidCount
      dsimp only
      have hperm := List.Perm.countP_eq (fun c => c.uid == u) (hσ (pyRemove st.gs.library t))
      rw [hperm, show pyRemove st.gs.library t = l₁ ++ l₂ from hlerase,
        show pyRemove st.gs.battlefield f = b₁ ++ b₂ from hberase,
        countP_snoc, countP_snoc, uid_forceTapped]
      conv_rhs => rw [hbsplit, hlsplit]
      rw [countP_split, countP_split]
      omega

theorem zoneCount_loopBody {σ : List Card → List Card}
    (hσ : ∀ l : List Card, (σ l).Perm l) {st st' : EState} {b : Bool}
    (h : loopBody σ st = .next st' b) : zoneCount st'.gs = zoneCount st.gs := by
  rcases hd : decisionState st with ⟨st2, manaAdded⟩
  have hz2 : zoneCount st2.gs = zoneCount st.gs := by
    have h1 := decision_hand st
    have h2 := decision_library st
    have h3 := decision_battlefield st
    have h4 := decision_graveyard st
    rw [hd] at h1 h2 h3 h4
    unfold zoneCount
    rw [h1, h2, h3, h4]
  simp only [loopBody, hd] at h
  rcases hc : chosenSpell st2.gs with _ | spell
  · simp only [hc] at h
    cases hm : manaAdded
    · rw [hm] at h
      simp only [Bool.false_eq_true, if_false] at h
      rcases hfe : resolveFetchLands σ st2 with ⟨st3, bb⟩
      rw [hfe] at h
      have hzf : zoneCount st3.gs = zoneCount st2.gs :=
        zoneCount_fetch hσ hfe
      cases bb
      · injection h with h1 h2
        subst h1
        rw [hzf, hz2]
      · injection h with h1 h2
        subst h1
        rw [hzf, hz2]
    · rw [hm] at h
      simp only [if_true] at h
      injection h with h1 h2
      subst h1
      exact hz2
  · simp only [hc] at h
    rcases hcast : cast_spell st2.gs spell spell.mana_cost with _ | _ | gs'
    · simp only [hcast] at h
      cases hm : manaAdded
      · rw [hm] at h
        simp only [Bool.false_eq_true, if_false] at h
        rcases hfe : resolveFetchLands σ st2 with ⟨st3, bb⟩
        rw [hfe] at h
        have hzf : zoneCount st3.gs = zoneCount st2.gs :=
          zoneCount_fetch hσ hfe
        cases bb
        · injection h with h1 h2
          subst h1
          rw [hzf, hz2]
        · injection h with h1 h2
          subst h1
          rw [hzf, hz2]
      · rw [hm] at h
        simp only [if_true] at h
        injection h with h1 h2
        subst h1
        exact hz2
    · simp only [hcast] at h
      cases h
    · simp only [hcast] at h
      injection h with h1 h2
      subst h1
      exact (zoneCount_cast hcast).trans hz2

theorem zoneCount_runLoop {σ : List Card → List Card}
    (hσ : ∀ l : List Card, (σ l).Perm l) :
    ∀ (fuel : Nat) (st : EState), zoneCount (runLoop σ fuel st).1.gs = zoneCount st.gs := by
  intro fuel
  induction fuel with
  | zero => exact fun st => rfl
  | succ f ih =>
    intro st
    rcases hb : loopBody σ st with _ | ⟨st', cont⟩
    · have hr : runLoop σ (f + 1) st = (st, 1, true) := by
        simp [runLoop, hb]
      rw [hr]
    · cases cont
      · have hr : runLoop σ (f + 1) st = (st', 1, true) := by
          simp [runLoop, hb]
        rw [hr]
        exact zoneCount_loopBody hσ hb
      · have hr : runLoop σ (f + 1) st =
            ((runLoop σ f st').1, (runLoop σ f st').2.1 + 1, (runLoop σ f st').2.2) := by
          simp [runLoop, hb]
        rw [hr]
        exact (ih st').trans (zoneCount_loopBody hσ hb)

/-- C6: each zone operation conserves cards.  The combined size of the four
zones is unchanged by `draw_card`, `play_land`, `cast_spell` (successful),
fetch resolution (shuffle permuting), and any number of main-phase loop
passes; and the multiset of per-card identities across the four zones is
unchanged by each operation — so from a start state whose cards partition
the deck, every card stays in exactly one zone and the sizes always sum to
the deck size.  The identity conjuncts for `play_land`/`cast_spell`/fetch
assume the engine's own selection discipline: the chosen card is the first
Python-`==` match in its zone (true of `_main_phase_heuristic`, which picks
cards out of the zone lists themselves). -/
theorem C6_zone_conservation :
    (∀ s : GameState, zoneCount (draw_card s).1 = zoneCount s ∧
      ∀ u, uidCount u (draw_card s).1 = uidCount u s) ∧
    (∀ (s : GameState) (card : Card), zoneCount (play_land s card).1 = zoneCount s ∧
      (s.hand.find? (fun d => pyEq d card) = some card →
        ∀ u, uidCount u (play_land s card).1 = uidCount u s)) ∧
    (∀ (s : GameState) (card : Card) (m : Dict) (gs' : GameState),
      cast_spell s card m = .ok gs' →
      zoneCount gs' = zoneCount s ∧
      (s.hand.find? (fun d => pyEq d card) = some card →
        ∀ u, uidCount u gs' = uidCount u s)) ∧
    (∀ (σ : List Card → List Card) (st : EState) (r : EState × Bool),
      (∀ l : List Card, (σ l).Perm l) → resolveFetchLands σ st = r →
      zoneCount r.1.gs = zoneCount st.gs ∧
      ((∀ f, (st.gs.battlefield.filter (fun c => c.tags.contains "FETCH_LAND")).find?
          (fetcherEligible st) = some f →
        st.gs.battlefield.find? (fun d => pyEq d f) = some f) →
        ∀ u, uidCount u r.1.gs = uidCount u st.gs)) ∧
    (∀ (σ : List Card → List Card), (∀ l : List Card, (σ l).Perm l) →
      ∀ (fuel : Nat) (st : EState),
        zoneCount (runLoop σ fuel st).1.gs = zoneCount st.gs) :=
  ⟨fun s => ⟨zoneCount_draw s, uidCount_draw s⟩,
    fun s card => ⟨zoneCount_play s card, fun hf u => uidCount_play s card hf u⟩,
    fun _ _ _ _ h => ⟨zoneCount_cast h, fun hf u => uidCount_cast h hf u⟩,
    fun _ _ _ hσ h => ⟨zoneCount_fetch hσ h, fun hid u => uidCount_fetch hσ h hid u⟩,
    fun _ hσ fuel st => zoneCount_runLoop hσ fuel st⟩

/-- Witness for C6 at concrete states: drawing, a concrete land play, and a
three-pass loop run all conserve the zones. -/
theorem C6_zone_conservation_witness :
    zoneCount (draw_card c10State).1 = zoneCount c10State ∧
    (∀ u, uidCount u (play_land c5State c5Land).1 = uidCount u c5State) ∧
    zoneCount (runLoop id 3 c7St).1.gs = zoneCount c7St.gs := by
  have h := C6_zone_conservation
  exact ⟨(h.1 c10State).1,
    (h.2.1 c5State c5Land).2 (by decide),
    h.2.2.2.2 id (fun l => List.Perm.refl l) 3 c7St⟩

end MtgSim
